import Mathlib

/-!
Verification of the PyNext compiler front-end (lexer, parser, Sema, CodeGen)
against its natural-language specification.

The C++ sources are shallowly embedded: the mutating `Lexer`, `Parser`,
`TypeChecker` and `CodeGen` classes become explicit state-passing functions.
Loops become fueled structural recursions (the fuel only bounds the number of
iterations; every call site passes a bound that is proved, or is evidently,
sufficient), so that all definitions compute by kernel reduction.
-/

namespace PyNext

/-! ## Lexer embedding (src/lexer/Token.h, src/lexer/Lexer.h)

The source buffer is a `List Char` (the C++ `std::string_view`); `peek` past
the end yields the NUL sentinel exactly as in the C++ code.  `line`/`column`
are C++ `int`s, hence `Int` here.
-/

/-- TokenKind from Token.h.  Note that `lbracket`/`rbracket` are declared in
the enumeration even though `Lexer::nextToken` has no case producing them. -/
inductive TokenKind where
  | endOfFile | error
  | identifier | integer | float | string
  | def_ | end_ | if_ | else_ | return_ | var | struct_ | extern_ | while_
  | true_ | false_
  | plus | minus | star | slash | equal | equalEqual | notEqual | arrow
  | lparen | rparen | lbracket | rbracket | comma | colon | dot
  | lessThan | greaterThan
deriving DecidableEq, Repr

/-- Token from Token.h: kind, text slice into the source, 1-based position. -/
structure Token where
  kind : TokenKind
  text : List Char
  line : Int
  column : Int
deriving DecidableEq, Repr

/-- The NUL sentinel that `Lexer::peek` returns at end of input. -/
def nulChar : Char := Char.ofNat 0

/-- `std::isspace` in the default C locale, on the ASCII characters the
lexer can meet. -/
def isSpaceC (c : Char) : Bool :=
  c = ' ' || c = '\t' || c = '\n' || c = Char.ofNat 11 || c = Char.ofNat 12 || c = '\r'

/-- `std::isdigit`. -/
def isDigitC (c : Char) : Bool := '0' ≤ c && c ≤ '9'

/-- `std::isalpha` (C locale). -/
def isAlphaC (c : Char) : Bool := ('a' ≤ c && c ≤ 'z') || ('A' ≤ c && c ≤ 'Z')

/-- `std::isalnum` (C locale). -/
def isAlnumC (c : Char) : Bool := isAlphaC c || isDigitC c

/-- Lexer state: the borrowed source view plus the four position fields. -/
structure Lexer where
  source : List Char
  position : Nat
  line : Int
  column : Int
  startPosition : Nat
deriving Repr

/-- `Lexer::Lexer(source)`. -/
def mkLexer (source : List Char) : Lexer :=
  { source := source, position := 0, line := 1, column := 1, startPosition := 0 }

/-- `Lexer::peek`. -/
def Lexer.peek (lx : Lexer) : Char :=
  lx.source.getD lx.position nulChar

/-- `Lexer::advance`. -/
def Lexer.advance (lx : Lexer) : Lexer :=
  if h : lx.position < lx.source.length then
    if lx.source.get ⟨lx.position, h⟩ = '\n' then
      { lx with line := lx.line + 1, column := 1, position := lx.position + 1 }
    else
      { lx with column := lx.column + 1, position := lx.position + 1 }
  else lx

/-- A `while (pred(peek())) advance();` loop.  All four character-consuming
loops of Lexer.cpp have this shape.  The fuel bounds the iteration count;
every call passes `source.length + 1`, which exceeds the remaining input. -/
def scanWhile (pred : Char → Bool) : Nat → Lexer → Lexer
  | 0, lx => lx
  | fuel + 1, lx => if pred lx.peek then scanWhile pred fuel lx.advance else lx

/-- Loop condition of the comment-skipping loop in `Lexer::skipWhitespace`. -/
def commentPred (c : Char) : Bool := c ≠ '\n' && c ≠ nulChar

/-- `Lexer::skipWhitespace`: skips whitespace and `#`-to-end-of-line
comments. -/
def skipWhitespace : Nat → Lexer → Lexer
  | 0, lx => lx
  | fuel + 1, lx =>
    let c := lx.peek
    if isSpaceC c then skipWhitespace fuel lx.advance
    else if c = '#' then
      skipWhitespace fuel (scanWhile commentPred (lx.source.length + 1) lx)
    else lx

/-- `Lexer::atom`: builds a token whose text is the current slice
`source[startPosition, position)`. -/
def Lexer.atom (lx : Lexer) (kind : TokenKind) : Token :=
  let text := (lx.source.drop lx.startPosition).take (lx.position - lx.startPosition)
  { kind := kind, text := text, line := lx.line, column := lx.column - text.length }

/-- Loop condition of the identifier loop. -/
def identPred (c : Char) : Bool := isAlnumC c || c = '_'

/-- `Lexer::identifier`: the first character has already been consumed by
`nextToken`; scan the rest, then classify through the keyword table.
`keywordKind` is the keyword table at the end of `Lexer::identifier`. -/
def keywordKind (text : List Char) : TokenKind :=
  if text = "def".data then TokenKind.def_
  else if text = "end".data then TokenKind.end_
  else if text = "if".data then TokenKind.if_
  else if text = "else".data then TokenKind.else_
  else if text = "return".data then TokenKind.return_
  else if text = "var".data then TokenKind.var
  else if text = "struct".data then TokenKind.struct_
  else if text = "extern".data then TokenKind.extern_
  else if text = "while".data then TokenKind.while_
  else if text = "true".data then TokenKind.true_
  else if text = "false".data then TokenKind.false_
  else TokenKind.identifier

/-- `Lexer::identifier`: the first character has already been consumed by
`nextToken`; scan the rest, then classify through the keyword table. -/
def Lexer.identifierTok (lx : Lexer) : Token × Lexer :=
  let lx1 := scanWhile identPred (lx.source.length + 1) lx
  let text := (lx1.source.drop lx1.startPosition).take (lx1.position - lx1.startPosition)
  (lx1.atom (keywordKind text), lx1)

/-- `Lexer::number`: a digit run; `isFloat` becomes true as soon as a `.`
follows the run (the C++ code does not require a digit after the dot). -/
def Lexer.numberTok (lx : Lexer) : Token × Lexer :=
  let lx1 := scanWhile isDigitC (lx.source.length + 1) lx
  if lx1.peek = '.' then
    let lx2 := lx1.advance
    let lx3 := scanWhile isDigitC (lx2.source.length + 1) lx2
    (lx3.atom TokenKind.float, lx3)
  else
    (lx1.atom TokenKind.integer, lx1)

/-- Loop condition of the string-content loop. -/
def strContentPred (c : Char) : Bool := c ≠ '"' && c ≠ nulChar

/-- `Lexer::string`: the token text is the content without the quotes. -/
def Lexer.stringTok (lx : Lexer) : Token × Lexer :=
  let lx1 := lx.advance
  let lx2 := scanWhile strContentPred (lx1.source.length + 1) lx1
  let lx3 := if lx2.peek = '"' then lx2.advance else lx2
  let fullLen := lx3.position - lx3.startPosition
  let text := (lx3.source.drop (lx3.startPosition + 1)).take (fullLen - 2)
  ({ kind := TokenKind.string, text := text, line := lx3.line,
     column := lx3.column - fullLen }, lx3)

/-- `Lexer::nextToken`.  The operator switch mirrors the C++ switch
literally: there are cases for `+ * / ( ) , : . < > - = !` and nothing else,
so `[`, `]` and every other byte fall through to the Error token. -/
def Lexer.nextTokenCore (lx : Lexer) : Token × Lexer :=
  let c := lx.peek
  if c = nulChar then (lx.atom TokenKind.endOfFile, lx)
  else if isAlphaC c || c = '_' then Lexer.identifierTok lx.advance
  else if isDigitC c then Lexer.numberTok lx
  else if c = '"' then Lexer.stringTok lx
  else
    let lx1 := lx.advance
    if c = '+' then (lx1.atom TokenKind.plus, lx1)
    else if c = '*' then (lx1.atom TokenKind.star, lx1)
    else if c = '/' then (lx1.atom TokenKind.slash, lx1)
    else if c = '(' then (lx1.atom TokenKind.lparen, lx1)
    else if c = ')' then (lx1.atom TokenKind.rparen, lx1)
    else if c = ',' then (lx1.atom TokenKind.comma, lx1)
    else if c = ':' then (lx1.atom TokenKind.colon, lx1)
    else if c = '.' then (lx1.atom TokenKind.dot, lx1)
    else if c = '<' then (lx1.atom TokenKind.lessThan, lx1)
    else if c = '>' then (lx1.atom TokenKind.greaterThan, lx1)
    else if c = '-' then
      if lx1.peek = '>' then
        let lx2 := lx1.advance
        (lx2.atom TokenKind.arrow, lx2)
      else (lx1.atom TokenKind.minus, lx1)
    else if c = '=' then
      if lx1.peek = '=' then
        let lx2 := lx1.advance
        (lx2.atom TokenKind.equalEqual, lx2)
      else (lx1.atom TokenKind.equal, lx1)
    else if c = '!' then
      if lx1.peek = '=' then
        let lx2 := lx1.advance
        (lx2.atom TokenKind.notEqual, lx2)
      else (lx1.atom TokenKind.error, lx1)
    else (lx1.atom TokenKind.error, lx1)

/-- `Lexer::nextToken`: skip whitespace, reset the token start, then run the
character switch. -/
def Lexer.nextToken (lx0 : Lexer) : Token × Lexer :=
  let lxA := skipWhitespace (lx0.source.length + 1) lx0
  Lexer.nextTokenCore { lxA with startPosition := lxA.position }

/-- Lex the whole input: repeated `nextToken` until the (sticky) EOF token. -/
def lexAll : Nat → Lexer → List Token
  | 0, _ => []
  | fuel + 1, lx =>
    let (t, lx1) := lx.nextToken
    if t.kind = TokenKind.endOfFile then [t] else t :: lexAll fuel lx1

/-- Lexing to exhaustion; every non-EOF token consumes at least one source
character, so `length + 2` rounds of `nextToken` always reach EOF. -/
def lexAllTop (src : List Char) : List Token :=
  lexAll (src.length + 2) (mkLexer src)

/-- Concatenation of the tokens' source slices, in production order. -/
def concatTexts (ts : List Token) : List Char :=
  ts.foldr (fun t acc => t.text ++ acc) []

/-- Specification-side notion of "the source modulo whitespace and comments":
whitespace characters are removed, and each `#` begins a comment reaching to
the end of the line.  The Boolean state is "currently inside a comment". -/
def stripSpecGo : Bool → List Char → List Char
  | _, [] => []
  | true, c :: rest =>
    if c = '\n' then stripSpecGo false rest else stripSpecGo true rest
  | false, c :: rest =>
    if isSpaceC c then stripSpecGo false rest
    else if c = '#' then stripSpecGo true rest
    else c :: stripSpecGo false rest

/-- The source with whitespace and comments removed. -/
def stripSpec (src : List Char) : List Char := stripSpecGo false src

end PyNext

namespace PyNext

/-! ## Semantic types (src/sema/Type.h)

The C++ `Type` class hierarchy (`VoidType`, `IntType`, …, `StructType`,
`FunctionType`, and the `ArrayType` used throughout Sema and CodeGen) becomes
one closed inductive.  A `StructType` carries its name and its ordered
`(fieldName, type)` list. -/

inductive Ty where
  | void
  | int
  | float
  | bool
  | string
  | struct (name : String) (fields : List (String × Ty))
  | array (elem : Ty)
  | func (ret : Ty) (params : List Ty)

/-! ## AST (src/parser/AST.h)

Expression nodes carry the mutable `type` slot as an `Option Ty`, `none`
standing for the null `shared_ptr` before Sema fills it.  Lists of child
nodes are separate mutually-inductive types (`ExprList`, `StmtList`) so that
every traversal below is a plain structural recursion; `OptBlock` plays the
role of a possibly-null `unique_ptr<Block>`.  The C++ `Block` statement is
represented directly by the `StmtList` it wraps. -/

mutual
inductive Expr where
  | lit (value : String) (isFloat : Bool) (isBool : Bool) (isString : Bool) (type : Option Ty)
  | var (name : String) (type : Option Ty)
  | bin (op : String) (left : Expr) (right : Expr) (type : Option Ty)
  | call (callee : String) (args : ExprList) (type : Option Ty)
  | member (object : Expr) (memberName : String) (type : Option Ty)
  | index (object : Expr) (indexExpr : Expr) (type : Option Ty)
  | arrayLit (elements : ExprList) (type : Option Ty)
inductive ExprList where
  | nil
  | cons (e : Expr) (es : ExprList)
end

mutual
inductive Stmt where
  | exprStmt (e : Expr)
  | ret (value : Option Expr)
  | ifStmt (condition : Expr) (thenBranch : StmtList) (elseBranch : OptBlock)
  | whileStmt (condition : Expr) (body : StmtList)
  | varDecl (name : String) (typeName : String) (initializer : Option Expr)
  | funcDecl (name : String) (params : List (String × String)) (returnType : String)
      (body : OptBlock)
  | structDecl (name : String) (fields : List (String × String))
inductive StmtList where
  | nil
  | cons (s : Stmt) (sl : StmtList)
inductive OptBlock where
  | none
  | some (b : StmtList)
end

/-- The `type` slot of an expression node. -/
def exprType : Expr → Option Ty
  | .lit _ _ _ _ ty => ty
  | .var _ ty => ty
  | .bin _ _ _ ty => ty
  | .call _ _ ty => ty
  | .member _ _ ty => ty
  | .index _ _ ty => ty
  | .arrayLit _ ty => ty

/-! ## Parser embedding (src/parser/Parser.h, Parser.cpp)

The parser holds one look-ahead token fed by the lexer; we model the token
stream as a `List Token` whose head is `currentToken` (past the end the
lexer keeps returning EOF, which `cur` reproduces).  A fatal `consume`
mismatch (`exit(1)` in the C++ code) becomes `none`.  Fuel bounds recursion
depth only. -/

def eofToken : Token := { kind := TokenKind.endOfFile, text := [], line := 0, column := 0 }

/-- The current look-ahead token. -/
def cur (st : List Token) : Token := st.headD eofToken

/-- `Parser::advance`. -/
def padvance (st : List Token) : List Token := st.tail

/-- `Parser::getPrecedence`. -/
def getPrecedence (kind : TokenKind) : Int :=
  match kind with
  | .star | .slash => 5
  | .plus | .minus => 4
  | .lessThan | .greaterThan => 3
  | .equalEqual | .notEqual => 2
  | .equal => 1
  | _ => -1

mutual

/-- `Parser::parsePrimary`, including the trailing postfix loop. -/
def parsePrimary : Nat → List Token → Option (Expr × List Token)
  | 0, _ => Option.none
  | fuel + 1, st =>
    let t := cur st
    (match t.kind with
     | .identifier =>
       let name := String.mk t.text
       let st1 := padvance st
       if (cur st1).kind = TokenKind.lparen then
         let st2 := padvance st1
         (if (cur st2).kind ≠ TokenKind.rparen then parseCommaExprs fuel st2
          else Option.some (ExprList.nil, st2)).bind fun (args, st3) =>
         if (cur st3).kind = TokenKind.rparen then
           Option.some (Expr.call name args Option.none, padvance st3)
         else Option.none
       else Option.some (Expr.var name Option.none, st1)
     | .integer =>
       Option.some (Expr.lit (String.mk t.text) false false false Option.none, padvance st)
     | .float =>
       Option.some (Expr.lit (String.mk t.text) true false false Option.none, padvance st)
     | .true_ => Option.some (Expr.lit "true" false true false Option.none, padvance st)
     | .false_ => Option.some (Expr.lit "false" false true false Option.none, padvance st)
     | .string =>
       Option.some (Expr.lit (String.mk t.text) false false true Option.none, padvance st)
     | .lbracket =>
       let st1 := padvance st
       (if (cur st1).kind ≠ TokenKind.rbracket then parseCommaExprs fuel st1
        else Option.some (ExprList.nil, st1)).bind fun (elems, st2) =>
       if (cur st2).kind = TokenKind.rbracket then
         Option.some (Expr.arrayLit elems Option.none, padvance st2)
       else Option.none
     | .lparen =>
       let st1 := padvance st
       (parseExpression fuel st1).bind fun (e, st2) =>
       if (cur st2).kind = TokenKind.rparen then Option.some (e, padvance st2)
       else Option.none
     | _ => Option.none
    ).bind fun (lhs, st') => parsePostfix fuel lhs st'

/-- The `do { … } while (match(Comma))` loop shared verbatim by call
arguments and array-literal elements. -/
def parseCommaExprs : Nat → List Token → Option (ExprList × List Token)
  | 0, _ => Option.none
  | fuel + 1, st =>
    (parseExpression fuel st).bind fun (e, st1) =>
    if (cur st1).kind = TokenKind.comma then
      (parseCommaExprs fuel (padvance st1)).map fun (es, st2) => (ExprList.cons e es, st2)
    else Option.some (ExprList.cons e ExprList.nil, st1)

/-- The postfix `while (true) { . IDENT | [ expr ] }` loop at the end of
`Parser::parsePrimary`. -/
def parsePostfix : Nat → Expr → List Token → Option (Expr × List Token)
  | 0, _, _ => Option.none
  | fuel + 1, lhs, st =>
    if (cur st).kind = TokenKind.dot then
      let st1 := padvance st
      if (cur st1).kind = TokenKind.identifier then
        parsePostfix fuel (Expr.member lhs (String.mk (cur st1).text) Option.none)
          (padvance st1)
      else Option.none
    else if (cur st).kind = TokenKind.lbracket then
      let st1 := padvance st
      (parseExpression fuel st1).bind fun (ix, st2) =>
      if (cur st2).kind = TokenKind.rbracket then
        parsePostfix fuel (Expr.index lhs ix Option.none) (padvance st2)
      else Option.none
    else Option.some (lhs, st)

/-- `Parser::parseBinary`: the Pratt loop.  Each `while (true)` iteration
is a tail call with the enlarged left operand; the conditional inner call
`parseBinary (rangePrec + 1)` is taken only when `rangePrec < nextPrec`,
exactly as in the C++ code. -/
def parseBinary : Nat → Int → Expr → List Token → Option (Expr × List Token)
  | 0, _, _, _ => Option.none
  | fuel + 1, exprPrec, lhs, st =>
    let rangePrec := getPrecedence (cur st).kind
    if rangePrec < exprPrec then Option.some (lhs, st)
    else
      let opToken := cur st
      let st1 := padvance st
      (parsePrimary fuel st1).bind fun (rhs0, st2) =>
      let nextPrec := getPrecedence (cur st2).kind
      (if rangePrec < nextPrec then parseBinary fuel (rangePrec + 1) rhs0 st2
       else Option.some (rhs0, st2)).bind fun (rhs, st3) =>
      parseBinary fuel exprPrec (Expr.bin (String.mk opToken.text) lhs rhs Option.none) st3

/-- `Parser::parseExpression`. -/
def parseExpression : Nat → List Token → Option (Expr × List Token)
  | 0, _ => Option.none
  | fuel + 1, st =>
    (parsePrimary fuel st).bind fun (lhs, st1) => parseBinary fuel 0 lhs st1

end

end PyNext

namespace PyNext

/-! ## Sema embedding (src/sema/TypeChecker.h, TypeChecker.cpp)

The two `std::map` registries become association lists with
overwrite-on-insert; only lookups are ever performed on them, for which the
association list agrees with the ordered map. -/

/-- Lookup in a `std::map` (first — and only — binding of the key wins). -/
def mapLookup {κ α : Type} [DecidableEq κ] (k : κ) : List (κ × α) → Option α
  | [] => Option.none
  | (k1, v) :: rest => if k1 = k then Option.some v else mapLookup k rest

/-- `map[k] = v`: overwrite the binding of `k`, or add one. -/
def mapInsert {κ α : Type} [DecidableEq κ] (k : κ) (v : α) : List (κ × α) → List (κ × α)
  | [] => [(k, v)]
  | (k1, v1) :: rest =>
    if k1 = k then (k, v) :: rest else (k1, v1) :: mapInsert k v rest

/-- `TypeChecker::resolveType`: scalar keywords, then the struct registry,
then the `[]` array suffix, else the silent `void` default.  The fuel is the
name length; the recursive call drops two characters, so the outer wrapper's
fuel is never exhausted. -/
def resolveTypeGo (structDefs : List (String × Ty)) : Nat → String → Ty
  | 0, _ => Ty.void
  | fuel + 1, name =>
    if name = "int" then Ty.int
    else if name = "float" then Ty.float
    else if name = "bool" then Ty.bool
    else if name = "string" then Ty.string
    else if name = "void" then Ty.void
    else
      match mapLookup name structDefs with
      | Option.some t => t
      | Option.none =>
        if 2 < name.data.length && name.data.reverse.take 2 = [']', '['] then
          Ty.array (resolveTypeGo structDefs fuel
            (String.mk (name.data.take (name.data.length - 2))))
        else Ty.void

/-- `TypeChecker::resolveType` (wrapper supplying sufficient fuel). -/
def resolveType (structDefs : List (String × Ty)) (name : String) : Ty :=
  resolveTypeGo structDefs name.data.length name

/-- `StructType::getMemberIndex`: index of the first field with the given
name, `-1` if absent. -/
def getMemberIndexGo (m : String) (i : Int) : List (String × Ty) → Int
  | [] => -1
  | f :: rest => if f.1 = m then i else getMemberIndexGo m (i + 1) rest

/-- `StructType::getMemberIndex` starting from index 0. -/
def getMemberIndex (fields : List (String × Ty)) (m : String) : Int :=
  getMemberIndexGo m 0 fields

/-- Sema state: symbol table, current function return type, struct registry. -/
structure SemaEnv where
  symbolTable : List (String × Ty)
  currentFunctionReturnType : Option Ty
  structDefs : List (String × Ty)

/-- A fresh `TypeChecker`. -/
def initialSemaEnv : SemaEnv :=
  { symbolTable := [], currentFunctionReturnType := Option.none, structDefs := [] }

/-- The `dynamic_cast` l-value test in `TypeChecker::visit(BinaryExpr&)`:
Variable, MemberAccess or Index. -/
def isValidLHS : Expr → Bool
  | .var .. => true
  | .member .. => true
  | .index .. => true
  | _ => false

mutual

/-- The expression-visiting half of the `TypeChecker` visitor: returns the
expression with its (and its visited children's) type slots filled.
Expression visits never modify the symbol table or the struct registry.
In the assignment case with an invalid left side the C++ code prints a
diagnostic and sets the node's own type to void WITHOUT visiting either
child, which is mirrored here by returning `l` and `r` unvisited.
The two `getD Ty.void` defaults below stand for copying a null
`shared_ptr`; they are unreachable because a visit always fills the visited
node's slot (theorem `checkExpr_fills`). -/
def checkExpr (env : SemaEnv) : Expr → Expr
  | .lit v f b s _ =>
    .lit v f b s (Option.some
      (if b then Ty.bool else if s then Ty.string else if f then Ty.float else Ty.int))
  | .var n _ =>
    .var n (Option.some
      (match mapLookup n env.symbolTable with
       | Option.some t => t
       | Option.none => Ty.void))
  | .bin op l r _ =>
    if op = "=" then
      if isValidLHS l then
        let l' := checkExpr env l
        let r' := checkExpr env r
        .bin op l' r' (exprType r')
      else
        .bin op l r (Option.some Ty.void)
    else
      let l' := checkExpr env l
      let r' := checkExpr env r
      let ty :=
        match exprType l', exprType r' with
        | Option.some Ty.int, Option.some Ty.int => Option.some Ty.int
        | _, _ => exprType l'
      .bin op l' r' ty
  | .call c args _ =>
    let args' := checkExprList env args
    let ty :=
      match mapLookup c env.symbolTable with
      | Option.some (Ty.func ret _) => Option.some ret
      | Option.some _ => Option.some Ty.void
      | Option.none => Option.some Ty.void
    .call c args' ty
  | .member obj m _ =>
    let obj' := checkExpr env obj
    let ty :=
      match exprType obj' with
      | Option.some (Ty.struct _ fields) =>
        (match mapLookup m fields with
         | Option.some t => Option.some t
         | Option.none => Option.some Ty.void)
      | _ => Option.some Ty.void
    .member obj' m ty
  | .index obj ix _ =>
    let obj' := checkExpr env obj
    let ix' := checkExpr env ix
    let ty :=
      match exprType obj' with
      | Option.some (Ty.array et) => Option.some et
      | _ => Option.some Ty.void
    .index obj' ix' ty
  | .arrayLit .nil _ => .arrayLit .nil (Option.some (Ty.array Ty.int))
  | .arrayLit (.cons e es) _ =>
    let e' := checkExpr env e
    let es' := checkExprList env es
    .arrayLit (.cons e' es') (Option.some (Ty.array ((exprType e').getD Ty.void)))

/-- Visit each element (the argument/element loops of the visitor). -/
def checkExprList (env : SemaEnv) : ExprList → ExprList
  | .nil => .nil
  | .cons e es => .cons (checkExpr env e) (checkExprList env es)

end

mutual

/-- The statement-visiting half of the `TypeChecker` visitor, threading the
mutable checker state.  `funcDecl` registers the function's binding, then
(for a defined function) snapshots the symbol table, inserts the parameter
bindings, walks the body and restores the snapshot — only the symbol table
is restored, exactly as in the C++ code. -/
def checkStmt (env : SemaEnv) : Stmt → Stmt × SemaEnv
  | .exprStmt e => (.exprStmt (checkExpr env e), env)
  | .ret v =>
    (match v with
     | Option.some e => (Stmt.ret (Option.some (checkExpr env e)), env)
     | Option.none => (Stmt.ret Option.none, env))
  | .ifStmt c t e =>
    let c' := checkExpr env c
    let rt := checkStmtList env t
    (match e with
     | .none => (Stmt.ifStmt c' rt.1 .none, rt.2)
     | .some b =>
       let rb := checkStmtList rt.2 b
       (Stmt.ifStmt c' rt.1 (.some rb.1), rb.2))
  | .whileStmt c b =>
    let c' := checkExpr env c
    let rb := checkStmtList env b
    (.whileStmt c' rb.1, rb.2)
  | .varDecl name typeName init =>
    (match init with
     | Option.some i =>
       let i' := checkExpr env i
       -- With an initializer: the declared type if present, else the
       -- initializer's type (never null after the visit, see
       -- `checkExpr_fills`; `getD` stands for copying the pointer).
       let ty := if typeName ≠ "" then resolveType env.structDefs typeName
                 else (exprType i').getD Ty.void
       (Stmt.varDecl name typeName (Option.some i'),
        { env with symbolTable := mapInsert name ty env.symbolTable })
     | Option.none =>
       let ty := if typeName ≠ "" then resolveType env.structDefs typeName
                 else Ty.void
       (Stmt.varDecl name typeName Option.none,
        { env with symbolTable := mapInsert name ty env.symbolTable }))
  | .funcDecl name params retName body =>
    let paramTypes := params.map fun p => resolveType env.structDefs p.2
    let returnType := resolveType env.structDefs retName
    let funcType := Ty.func returnType paramTypes
    let env1 := { env with symbolTable := mapInsert name funcType env.symbolTable }
    (match body with
     | .none => (Stmt.funcDecl name params retName .none, env1)
     | .some b =>
       let env2 := { env1 with currentFunctionReturnType := Option.some returnType }
       let oldTable := env2.symbolTable
       let withParams :=
         (params.zip paramTypes).foldl (fun tbl pp => mapInsert pp.1.1 pp.2 tbl)
           env2.symbolTable
       let env3 := { env2 with symbolTable := withParams }
       let rb := checkStmtList env3 b
       (Stmt.funcDecl name params retName (.some rb.1),
        { rb.2 with symbolTable := oldTable }))
  | .structDecl name fields =>
    let resolved := fields.map fun f => (f.1, resolveType env.structDefs f.2)
    (Stmt.structDecl name fields,
     { env with structDefs := mapInsert name (Ty.struct name resolved) env.structDefs })

/-- Visit a statement sequence (`TypeChecker::check` / `visit(Block&)`). -/
def checkStmtList (env : SemaEnv) : StmtList → StmtList × SemaEnv
  | .nil => (.nil, env)
  | .cons s sl =>
    let rs := checkStmt env s
    let rsl := checkStmtList rs.2 sl
    (.cons rs.1 rsl.1, rsl.2)

end

/-- `TypeChecker::check` on a fresh checker: Sema over a parsed module. -/
def semaCheck (stmts : StmtList) : StmtList × SemaEnv :=
  checkStmtList initialSemaEnv stmts

end PyNext

namespace PyNext

/-! ## Predicates for the "every reachable expression node is typed" claim -/

mutual

/-- Every node of the expression tree has a filled type slot. -/
def allTyped : Expr → Bool
  | .lit _ _ _ _ ty => ty.isSome
  | .var _ ty => ty.isSome
  | .bin _ l r ty => ty.isSome && allTyped l && allTyped r
  | .call _ args ty => ty.isSome && allTypedList args
  | .member obj _ ty => ty.isSome && allTyped obj
  | .index obj ix ty => ty.isSome && allTyped obj && allTyped ix
  | .arrayLit es ty => ty.isSome && allTypedList es

/-- `allTyped` over an expression list. -/
def allTypedList : ExprList → Bool
  | .nil => true
  | .cons e es => allTyped e && allTypedList es

end

mutual

/-- Every assignment node in the expression has a Variable, MemberAccess or
Index expression on its left side. -/
def validAssigns : Expr → Bool
  | .lit .. => true
  | .var .. => true
  | .bin op l r _ => (!(op = "=") || isValidLHS l) && validAssigns l && validAssigns r
  | .call _ args _ => validAssignsList args
  | .member obj _ _ => validAssigns obj
  | .index obj ix _ => validAssigns obj && validAssigns ix
  | .arrayLit es _ => validAssignsList es

/-- `validAssigns` over an expression list. -/
def validAssignsList : ExprList → Bool
  | .nil => true
  | .cons e es => validAssigns e && validAssignsList es

end

mutual

/-- Every expression reachable from the statement satisfies `allTyped`. -/
def stmtAllTyped : Stmt → Bool
  | .exprStmt e => allTyped e
  | .ret v => (match v with | Option.some e => allTyped e | Option.none => true)
  | .ifStmt c t e =>
    allTyped c && stmtListAllTyped t &&
      (match e with | .none => true | .some b => stmtListAllTyped b)
  | .whileStmt c b => allTyped c && stmtListAllTyped b
  | .varDecl _ _ i =>
    (match i with | Option.some e => allTyped e | Option.none => true)
  | .funcDecl _ _ _ b =>
    (match b with | .none => true | .some bl => stmtListAllTyped bl)
  | .structDecl .. => true

/-- `stmtAllTyped` over a statement sequence. -/
def stmtListAllTyped : StmtList → Bool
  | .nil => true
  | .cons s sl => stmtAllTyped s && stmtListAllTyped sl

end

mutual

/-- Every expression reachable from the statement satisfies `validAssigns`. -/
def stmtValidAssigns : Stmt → Bool
  | .exprStmt e => validAssigns e
  | .ret v => (match v with | Option.some e => validAssigns e | Option.none => true)
  | .ifStmt c t e =>
    validAssigns c && stmtListValidAssigns t &&
      (match e with | .none => true | .some b => stmtListValidAssigns b)
  | .whileStmt c b => validAssigns c && stmtListValidAssigns b
  | .varDecl _ _ i =>
    (match i with | Option.some e => validAssigns e | Option.none => true)
  | .funcDecl _ _ _ b =>
    (match b with | .none => true | .some bl => stmtListValidAssigns bl)
  | .structDecl .. => true

/-- `stmtValidAssigns` over a statement sequence. -/
def stmtListValidAssigns : StmtList → Bool
  | .nil => true
  | .cons s sl => stmtValidAssigns s && stmtListValidAssigns sl

end

end PyNext

namespace PyNext

/-! ## IR and CodeGen embedding (src/codegen/CodeGen.h, CodeGen.cpp)

The LLVM objects are modelled just deeply enough to mirror every statement
of CodeGen.cpp: functions carry their signature; basic blocks live in one
pool, identified by a numeric id, carrying their instruction list and the
function (index) they are attached to — `BasicBlock::Create(ctx, n, func)`
attaches at creation, the two-argument form creates a detached block that
`Function::insert` attaches later.  The builder's insertion point is the id
of the current block; instructions are appended at its end (except the
`alloca`s of `createEntryBlockAlloca`, which are prepended to the entry
block).  A block's terminator in the LLVM sense is its last instruction
when that instruction is a terminator. -/

inductive IRType where
  | int (width : Nat)
  | double
  | voidT
  | pointer (elem : IRType)
  | structRef (name : String)
deriving DecidableEq, Repr

/-- `llvm::Type::isIntegerTy()`. -/
def IRType.isIntegerTy : IRType → Bool
  | .int _ => true
  | _ => false

/-- An LLVM `Value*`; instruction results are identified by fresh ids and
carry their type. -/
inductive IRValue where
  | constInt (width : Nat) (value : Int)
  | constFP (text : String)
  | constNull (ty : IRType)
  | undef (ty : IRType)
  | globalStr (id : Nat) (content : String)
  | inst (id : Nat) (ty : IRType)
  | funcArg (fnIdx : Nat) (argIdx : Nat) (ty : IRType)
deriving DecidableEq, Repr

/-- `Value::getType`. -/
def IRValue.ty : IRValue → IRType
  | .constInt w _ => .int w
  | .constFP _ => .double
  | .constNull t => t
  | .undef t => t
  | .globalStr _ _ => .pointer (.int 8)
  | .inst _ t => t
  | .funcArg _ _ t => t

/-- IR instructions; `store` holds an `Option` value because CodeGen.cpp can
pass a null `Value*` (a real LLVM build would assert there). -/
inductive Instr where
  | alloca (id : Nat) (ty : IRType) (name : String)
  | store (value : Option IRValue) (addr : IRValue)
  | load (id : Nat) (ty : IRType) (addr : IRValue) (name : String)
  | binop (id : Nat) (op : String) (lhs rhs : IRValue) (name : String)
  | icmp (id : Nat) (pred : String) (lhs rhs : IRValue) (name : String)
  | call (id : Nat) (callee : String) (args : List IRValue) (name : String)
  | gep (id : Nat) (baseType : IRType) (base : IRValue) (indices : List IRValue)
      (name : String)
  | ret (value : Option IRValue)
  | br (dest : Nat)
  | condBr (cond : IRValue) (thenDest elseDest : Nat)
deriving DecidableEq, Repr

/-- Terminator instructions, as LLVM classifies them. -/
def Instr.isTerminator : Instr → Bool
  | .ret _ => true
  | .br _ => true
  | .condBr .. => true
  | _ => false

/-- A function header in the module (signatures are immutable after
`Function::Create`). -/
structure IRFunc where
  name : String
  retTy : IRType
  paramTys : List IRType
deriving DecidableEq, Repr

/-- A basic block: unique id, LLVM name, instruction list and the index of
the function it is attached to (`Option.none` while detached). -/
structure BBlock where
  id : Nat
  name : String
  instrs : List Instr
  parentFn : Option Nat
deriving DecidableEq, Repr

/-- The whole CodeGen object: the module (functions, blocks, per-function
entry block), the builder insertion point, the three maps, `lastValue`, and
a fresh-id counter. -/
structure CG where
  functions : List IRFunc
  blocks : List BBlock
  fnEntry : List (Nat × Nat)
  insertPt : Option Nat
  namedValues : List (String × (Nat × IRType))
  structTypes : List (String × List IRType)
  structFieldIndices : List (String × List (String × Int))
  lastValue : Option IRValue
  nextId : Nat

/-- A fresh `CodeGen` object. -/
def initialCG : CG :=
  { functions := [], blocks := [], fnEntry := [], insertPt := Option.none,
    namedValues := [], structTypes := [], structFieldIndices := [],
    lastValue := Option.none, nextId := 0 }

/-- `CodeGen::getType`: scalar names, then the `[]` array suffix (arrays are
raw `T*`), then registered struct types, else the 64-bit-integer default.
Same fuel scheme as `resolveType`. -/
def getIRTypeGo (structTypes : List (String × List IRType)) : Nat → String → IRType
  | 0, _ => .int 64
  | fuel + 1, name =>
    if name = "int" then .int 64
    else if name = "float" then .double
    else if name = "bool" then .int 1
    else if name = "string" then .pointer (.int 8)
    else if name = "void" then .voidT
    else if 2 < name.data.length && name.data.reverse.take 2 = [']', '['] then
      .pointer (getIRTypeGo structTypes fuel
        (String.mk (name.data.take (name.data.length - 2))))
    else
      match mapLookup name structTypes with
      | Option.some _ => .structRef name
      | Option.none => .int 64

/-- `CodeGen::getType` (wrapper supplying sufficient fuel). -/
def getIRType (structTypes : List (String × List IRType)) (name : String) : IRType :=
  getIRTypeGo structTypes name.data.length name

/-- `std::stoll` on the digit strings the lexer produces for integer
literals (no sign, no overflow handling — literal texts are digit runs). -/
def stollModel (s : String) : Int :=
  s.data.foldl (fun acc c => if isDigitC c then acc * 10 + (c.toNat - 48) else acc) 0

/-- `DataLayout::getTypeAllocSize` on the x86-64 layout used by the JIT.
For structs we take the plain sum of the field sizes: the real layout adds
alignment padding, but no claim under verification depends on this number
(it only feeds the byte count passed to `malloc`). -/
def allocSize (structTypes : List (String × List IRType)) : Nat → IRType → Nat
  | 0, _ => 8
  | _, .int 1 => 1
  | _, .int 8 => 1
  | _, .int _ => 8
  | _, .double => 8
  | _, .voidT => 0
  | _, .pointer _ => 8
  | fuel + 1, .structRef n =>
    match mapLookup n structTypes with
    | Option.some fields => (fields.map (allocSize structTypes fuel)).sum
    | Option.none => 8

/-- Fetch a block from the pool. -/
def CG.findBlock (cg : CG) (bid : Nat) : Option BBlock :=
  cg.blocks.find? (fun b => b.id = bid)

/-- Replace a block in the pool (by id). -/
def CG.setBlock (cg : CG) (bid : Nat) (f : BBlock → BBlock) : CG :=
  { cg with blocks := cg.blocks.map (fun b => if b.id = bid then f b else b) }

/-- Allocate a fresh id. -/
def CG.freshId (cg : CG) : Nat × CG :=
  (cg.nextId, { cg with nextId := cg.nextId + 1 })

/-- `Function::Create(..., module)`: append to the module, return its index. -/
def CG.addFunction (cg : CG) (f : IRFunc) : Nat × CG :=
  (cg.functions.length, { cg with functions := cg.functions ++ [f] })

/-- `Module::getFunction(name)`: index of the first function so named. -/
def CG.getFunction (cg : CG) (name : String) : Option Nat :=
  cg.functions.findIdx? (fun f => f.name = name)

/-- Function signature by index. -/
def CG.funcAt (cg : CG) (fnIdx : Nat) : Option IRFunc := cg.functions.get? fnIdx

/-- Record a block as attached to a function; the first block attached to a
function is its entry block. -/
def CG.attachTo (cg : CG) (bid fnIdx : Nat) : CG :=
  let cg1 := cg.setBlock bid (fun b => { b with parentFn := Option.some fnIdx })
  match mapLookup fnIdx cg1.fnEntry with
  | Option.some _ => cg1
  | Option.none => { cg1 with fnEntry := mapInsert fnIdx bid cg1.fnEntry }

/-- `BasicBlock::Create`: fresh block, attached at once when a parent
function is given. -/
def CG.newBlock (cg : CG) (name : String) (parent : Option Nat) : Nat × CG :=
  let (bid, cg1) := cg.freshId
  let cg2 := { cg1 with blocks := cg1.blocks ++
    [{ id := bid, name := name, instrs := [], parentFn := Option.none }] }
  match parent with
  | Option.some fnIdx => (bid, cg2.attachTo bid fnIdx)
  | Option.none => (bid, cg2)

/-- `IRBuilder::SetInsertPoint`. -/
def CG.setIP (cg : CG) (bid : Nat) : CG := { cg with insertPt := Option.some bid }

/-- Append an instruction at the insertion point (end of the current block).
With no insertion point the C++ builder would be unusable; CodeGen always
sets one before emitting, so the no-op branch is unreachable. -/
def CG.emit (cg : CG) (i : Instr) : CG :=
  match cg.insertPt with
  | Option.some bid => cg.setBlock bid (fun b => { b with instrs := b.instrs ++ [i] })
  | Option.none => cg

/-- `BasicBlock::getTerminator() != nullptr` for the current block: the last
instruction exists and is a terminator. -/
def CG.curTerminated (cg : CG) : Bool :=
  match cg.insertPt with
  | Option.some bid =>
    (match cg.findBlock bid with
     | Option.some b =>
       (match b.instrs.getLast? with
        | Option.some i => i.isTerminator
        | Option.none => false)
     | Option.none => false)
  | Option.none => false

/-- The function owning the current block
(`builder.GetInsertBlock()->getParent()`); CodeGen only consults it while
the insertion point sits in an attached block, so the 0 default is
unreachable. -/
def CG.curParent (cg : CG) : Nat :=
  match cg.insertPt with
  | Option.some bid =>
    (match cg.findBlock bid with
     | Option.some b => b.parentFn.getD 0
     | Option.none => 0)
  | Option.none => 0

/-- `CodeGen::createEntryBlockAlloca`: a temporary builder inserts the
alloca at the BEGINNING of the function's entry block.  Returns the alloca
id (its `Value*`). -/
def CG.entryAlloca (cg : CG) (fnIdx : Nat) (ty : IRType) (name : String) : Nat × CG :=
  let (aid, cg1) := cg.freshId
  match mapLookup fnIdx cg1.fnEntry with
  | Option.some bid =>
    (aid, cg1.setBlock bid (fun b => { b with instrs := Instr.alloca aid ty name :: b.instrs }))
  | Option.none => (aid, cg1)

/-- The widening at `if`/`while` conditions: a 64-bit integer condition is
compared not-equal against 0 to obtain an `i1` (named "ifcond" at an `if`
and "loopcond" at a `while`). -/
def CG.widenCond (cg : CG) (condV : IRValue) (nm : String) : IRValue × CG :=
  if condV.ty = IRType.int 64 then
    let (cid, cg1) := cg.freshId
    let cg2 := cg1.emit (Instr.icmp cid "ne" condV (IRValue.constInt 64 0) nm)
    (IRValue.inst cid (IRType.int 1), cg2)
  else (condV, cg)

end PyNext

namespace PyNext

/-- `CreateAdd`/`CreateSub`/… : fresh arithmetic instruction; the result
type is the left operand's type, as for LLVM binary operators. -/
def CG.emitBinop (cg : CG) (op : String) (l r : IRValue) (nm : String) : CG :=
  let (iid, cg1) := cg.freshId
  let cg2 := cg1.emit (Instr.binop iid op l r nm)
  { cg2 with lastValue := Option.some (IRValue.inst iid l.ty) }

/-- `CreateICmpSLT`/… : fresh comparison yielding an `i1`. -/
def CG.emitIcmp (cg : CG) (pred : String) (l r : IRValue) (nm : String) : CG :=
  let (iid, cg1) := cg.freshId
  let cg2 := cg1.emit (Instr.icmp iid pred l r nm)
  { cg2 with lastValue := Option.some (IRValue.inst iid (IRType.int 1)) }

/-- Number of expressions in a list. -/
def ExprList.length : ExprList → Nat
  | .nil => 0
  | .cons _ es => es.length + 1

/-- The Sema-type → IR-type mapping inlined in `visit(MemberAccessExpr)`;
`Option.none` is the still-null `loadType` that falls back to `i64`. -/
def memberLoadType (cg : CG) : Option Ty → Option IRType
  | Option.some Ty.int => Option.some (.int 64)
  | Option.some Ty.float => Option.some .double
  | Option.some Ty.bool => Option.some (.int 1)
  | Option.some Ty.string => Option.some (.pointer (.int 8))
  | Option.some (Ty.struct n _) =>
    (match mapLookup n cg.structTypes with
     | Option.some _ => Option.some (.structRef n)
     | Option.none => Option.none)
  | _ => Option.none

/-- The mapping inlined in `visit(IndexExpr)` (note: no string case there);
the default is `i64`. -/
def indexLoadType (cg : CG) : Option Ty → IRType
  | Option.some Ty.int => .int 64
  | Option.some Ty.float => .double
  | Option.some Ty.bool => .int 1
  | Option.some (Ty.struct n _) =>
    (match mapLookup n cg.structTypes with
     | Option.some _ => .structRef n
     | Option.none => .int 64)
  | _ => .int 64

/-- The element-type mapping inlined in `visit(ArrayLiteralExpr)`. -/
def arrayLitElemType (cg : CG) : Option Ty → IRType
  | Option.some (Ty.array et) =>
    (match et with
     | Ty.int => .int 64
     | Ty.float => .double
     | Ty.bool => .int 1
     | Ty.struct n _ =>
       (match mapLookup n cg.structTypes with
        | Option.some _ => .structRef n
        | Option.none => .int 64)
     | _ => .int 64)
  | _ => .int 64

/-- The element-type mapping inlined in the Index branch of
`getLValueAddress`. -/
def lvalElemType (cg : CG) : Ty → IRType
  | Ty.int => .int 64
  | Ty.float => .double
  | Ty.bool => .int 1
  | Ty.struct n _ =>
    (match mapLookup n cg.structTypes with
     | Option.some _ => .structRef n
     | Option.none => .int 64)
  | _ => .int 64

/-- The `int idx = 0; for (field : fields) fieldIndices[field.first] = idx++;`
loop of `CodeGen::visit(StructDeclStmt&)`: a map-overwrite per field, the
counter advancing every iteration. -/
def buildFieldIndicesGo (acc : List (String × Int)) (idx : Int) :
    List (String × String) → List (String × Int)
  | [] => acc
  | f :: rest => buildFieldIndicesGo (mapInsert f.1 idx acc) (idx + 1) rest

/-- `CodeGen::visit(StructDeclStmt&)`: the FIRST declaration of a name wins;
later declarations return early. -/
def genStructDecl (cg : CG) (name : String) (fields : List (String × String)) : CG :=
  match mapLookup name cg.structTypes with
  | Option.some _ => cg
  | Option.none =>
    let fieldTypes := fields.map (fun f => getIRType cg.structTypes f.2)
    let fieldIndices := buildFieldIndicesGo [] 0 fields
    { cg with structTypes := mapInsert name fieldTypes cg.structTypes,
              structFieldIndices := mapInsert name fieldIndices cg.structFieldIndices }

mutual

/-- The expression-lowering half of the CodeGen visitor.  The fuel only
bounds the call depth: `visit(MemberAccessExpr)` and `visit(IndexExpr)`
call `getLValueAddress` on the very node being visited (mirrored verbatim
here), so the recursion is structural on the fuel, which every statement
call site supplies amply (`2 * sizeOf e + 2` exceeds the call depth). -/
def genExpr : Nat → CG → Expr → CG
  | 0, cg, _ => cg
  | fuel + 1, cg, e =>
    match e with
    | .lit value isFloat isBool isString _ =>
      -- The literal kind tests happen in the C++ order: bool, string,
      -- float, int.
      if isBool then
        { cg with lastValue := Option.some (IRValue.constInt 1 (if value = "true" then 1 else 0)) }
      else if isString then
        let (sid, cg1) := cg.freshId
        { cg1 with lastValue := Option.some (IRValue.globalStr sid value) }
      else if isFloat then
        { cg with lastValue := Option.some (IRValue.constFP value) }
      else
        { cg with lastValue := Option.some (IRValue.constInt 64 (stollModel value)) }
    | .var n _ =>
      (match mapLookup n cg.namedValues with
       | Option.none => { cg with lastValue := Option.none }
       | Option.some (aid, ty) =>
         let (lid, cg1) := cg.freshId
         let cg2 := cg1.emit (Instr.load lid ty (IRValue.inst aid (.pointer ty)) n)
         { cg2 with lastValue := Option.some (IRValue.inst lid ty) })
    | .bin op l r _ =>
      if op = "=" then
        let res := genLValueAddress fuel cg l
        (match res.1 with
         | Option.none => { res.2 with lastValue := Option.none }
         | Option.some addr =>
           let cg2 := genExpr fuel res.2 r
           (match cg2.lastValue with
            | Option.none => cg2
            | Option.some v =>
              let cg3 := cg2.emit (Instr.store (Option.some v) addr)
              { cg3 with lastValue := Option.some v }))
      else
        let cg1 := genExpr fuel cg l
        let lv := cg1.lastValue
        let cg2 := genExpr fuel cg1 r
        let rv := cg2.lastValue
        (match lv, rv with
         | Option.some lval, Option.some rval =>
           if op = "+" then cg2.emitBinop "add" lval rval "addtmp"
           else if op = "-" then cg2.emitBinop "sub" lval rval "subtmp"
           else if op = "*" then cg2.emitBinop "mul" lval rval "multmp"
           else if op = "/" then cg2.emitBinop "sdiv" lval rval "divtmp"
           else if op = "<" then cg2.emitIcmp "slt" lval rval "cmptmp"
           else if op = ">" then cg2.emitIcmp "sgt" lval rval "cmptmp"
           else if op = "==" then cg2.emitIcmp "eq" lval rval "cmptmp"
           else if op = "!=" then cg2.emitIcmp "ne" lval rval "cmptmp"
           else { cg2 with lastValue := Option.none }
         | _, _ => { cg2 with lastValue := Option.none })
    | .call callee args _ =>
      (match cg.getFunction callee with
       | Option.none => { cg with lastValue := Option.none }
       | Option.some fnIdx =>
         let fn := (cg.funcAt fnIdx).getD { name := callee, retTy := .voidT, paramTys := [] }
         if fn.paramTys.length ≠ args.length then { cg with lastValue := Option.none }
         else
           let res := genCallArgs fuel cg args
           (match res.1 with
            | Option.none => res.2
            | Option.some vs =>
              let (cid, cg2) := res.2.freshId
              let cg3 := cg2.emit (Instr.call cid callee vs "calltmp")
              { cg3 with lastValue := Option.some (IRValue.inst cid fn.retTy) }))
    | .member _ _ ty =>
      -- visit(MemberAccessExpr): getLValueAddress on the node itself.
      let res := genLValueAddress fuel cg e
      (match res.1 with
       | Option.none => { res.2 with lastValue := Option.none }
       | Option.some addr =>
         let loadTy := (memberLoadType res.2 ty).getD (.int 64)
         let (lid, cg2) := res.2.freshId
         let cg3 := cg2.emit (Instr.load lid loadTy addr "memberload")
         { cg3 with lastValue := Option.some (IRValue.inst lid loadTy) })
    | .index _ _ ty =>
      -- visit(IndexExpr): getLValueAddress on the node itself.
      let res := genLValueAddress fuel cg e
      (match res.1 with
       | Option.none => { res.2 with lastValue := Option.none }
       | Option.some addr =>
         let loadTy := indexLoadType res.2 ty
         let (lid, cg2) := res.2.freshId
         let cg3 := cg2.emit (Instr.load lid loadTy addr "indexload")
         { cg3 with lastValue := Option.some (IRValue.inst lid loadTy) })
    | .arrayLit elems ty =>
      let size := elems.length
      let elemType := arrayLitElemType cg ty
      let res :=
        (match cg.getFunction "malloc" with
         | Option.some i => (i, cg)
         | Option.none =>
           cg.addFunction { name := "malloc", retTy := .pointer (.int 8),
                            paramTys := [.int 64] })
      let mallocFn := (res.2.funcAt res.1).getD
        { name := "malloc", retTy := .pointer (.int 8), paramTys := [.int 64] }
      let typeSize := allocSize res.2.structTypes (res.2.structTypes.length + 1) elemType
      let totalSize := typeSize * size
      let (cid, cg2) := res.2.freshId
      let cg3 := cg2.emit (Instr.call cid "malloc"
        [IRValue.constInt 64 (Int.ofNat totalSize)] "malloccall")
      let arrayPtr := IRValue.inst cid mallocFn.retTy
      let cg4 := genArrayStores fuel cg3 elemType arrayPtr 0 elems
      { cg4 with lastValue := Option.some arrayPtr }

/-- The argument loop of `visit(CallExpr)`: evaluate in order; a null value
aborts the visit (`Option.none`) with `lastValue` already null. -/
def genCallArgs : Nat → CG → ExprList → (Option (List IRValue)) × CG
  | 0, cg, _ => (Option.none, cg)
  | fuel + 1, cg, es =>
    match es with
    | .nil => (Option.some [], cg)
    | .cons e rest =>
      let cg1 := genExpr fuel cg e
      (match cg1.lastValue with
       | Option.none => (Option.none, cg1)
       | Option.some v =>
         let res := genCallArgs fuel cg1 rest
         (match res.1 with
          | Option.none => (Option.none, res.2)
          | Option.some vs => (Option.some (v :: vs), res.2)))

/-- The element-store loop of `visit(ArrayLiteralExpr)`: GEP to slot `i`,
store the element's value (possibly null — mirrored by the `Option`). -/
def genArrayStores : Nat → CG → IRType → IRValue → Nat → ExprList → CG
  | 0, cg, _, _, _, _ => cg
  | fuel + 1, cg, elemType, arrayPtr, i, es =>
    match es with
    | .nil => cg
    | .cons e rest =>
      let cg1 := genExpr fuel cg e
      let v := cg1.lastValue
      let (gid, cg2) := cg1.freshId
      let cg3 := cg2.emit (Instr.gep gid elemType arrayPtr
        [IRValue.constInt 64 (Int.ofNat i)] "initidx")
      let cg4 := cg3.emit (Instr.store v (IRValue.inst gid (.pointer (.int 8))))
      genArrayStores fuel cg4 elemType arrayPtr (i + 1) rest

/-- `CodeGen::getLValueAddress`: address of a Variable's stack slot; GEP
into a struct for MemberAccess (struct identified by the Sema annotation of
the object); for Index, the object is lowered to a VALUE (the array
pointer) and GEPed with the element type.  All pointer-typed instruction
results carry the opaque-pointer stand-in type `ptr` (`.pointer (.int 8)`). -/
def genLValueAddress : Nat → CG → Expr → (Option IRValue) × CG
  | 0, cg, _ => (Option.none, cg)
  | fuel + 1, cg, e =>
    match e with
    | .var n _ =>
      (match mapLookup n cg.namedValues with
       | Option.some (aid, ty) => (Option.some (IRValue.inst aid (.pointer ty)), cg)
       | Option.none => (Option.none, cg))
    | .member obj m _ =>
      let res := genLValueAddress fuel cg obj
      (match res.1 with
       | Option.none => (Option.none, res.2)
       | Option.some base =>
         (match exprType obj with
          | Option.none => (Option.none, res.2)
          | Option.some objTy =>
            (match objTy with
             | Ty.struct sname _ =>
               (match mapLookup sname res.2.structTypes with
                | Option.none => (Option.none, res.2)
                | Option.some _ =>
                  let fidx := (mapLookup sname res.2.structFieldIndices).getD []
                  (match mapLookup m fidx with
                   | Option.none => (Option.none, res.2)
                   | Option.some idx =>
                     let (gid, cg2) := res.2.freshId
                     let cg3 := cg2.emit (Instr.gep gid (.structRef sname) base
                       [IRValue.constInt 32 0, IRValue.constInt 32 idx] "memberaddr")
                     (Option.some (IRValue.inst gid (.pointer (.int 8))), cg3)))
             | _ => (Option.none, res.2))))
    | .index obj ix _ =>
      let cg1 := genExpr fuel cg obj
      (match cg1.lastValue with
       | Option.none => (Option.none, cg1)
       | Option.some arrayPtr =>
         let cg2 := genExpr fuel cg1 ix
         (match cg2.lastValue with
          | Option.none => (Option.none, cg2)
          | Option.some indexVal =>
            (match exprType obj with
             | Option.none => (Option.none, cg2)
             | Option.some objTy =>
               (match objTy with
                | Ty.array et =>
                  let elemTy := lvalElemType cg2 et
                  let (gid, cg3) := cg2.freshId
                  let cg4 := cg3.emit (Instr.gep gid elemTy arrayPtr [indexVal] "indexaddr")
                  (Option.some (IRValue.inst gid (.pointer (.int 8))), cg4)
                | _ => (Option.none, cg2)))))
    | _ => (Option.none, cg)

end

end PyNext

namespace PyNext

mutual

/-- Node count of an expression tree. -/
def Expr.size : Expr → Nat
  | .lit .. => 1
  | .var .. => 1
  | .bin _ l r _ => l.size + r.size + 1
  | .call _ args _ => args.size + 1
  | .member o _ _ => o.size + 1
  | .index o i _ => o.size + i.size + 1
  | .arrayLit es _ => es.size + 1

/-- Node count of an expression list. -/
def ExprList.size : ExprList → Nat
  | .nil => 1
  | .cons e es => e.size + es.size + 1

end

/-- Ample fuel for lowering one expression: the `genExpr`/`getLValueAddress`
call depth is at most twice the node count. -/
def exprFuel (e : Expr) : Nat := 2 * e.size + 2

/-- `Function::Create` from a `FunctionStmt`'s source signature
(parameter and return IR types via `CodeGen::getType`). -/
def cgFuncCreate (cg : CG) (name : String) (params : List (String × String))
    (retName : String) : Nat × CG :=
  let argTypes := params.map (fun p => getIRType cg.structTypes p.2)
  let retTy := getIRType cg.structTypes retName
  cg.addFunction { name := name, retTy := retTy, paramTys := argTypes }

/-- The body prologue of `visit(FunctionStmt&)`: create and enter the
`entry` block, clear `namedValues`, then for each parameter create a stack
slot in the entry block, store the incoming argument and bind the name. -/
def cgFuncPrologue (cg : CG) (fnIdx : Nat) (params : List (String × String)) : CG :=
  let res := cg.newBlock "entry" (Option.some fnIdx)
  let cg2 := { res.2.setIP res.1 with namedValues := [] }
  let fn := (cg2.funcAt fnIdx).getD { name := "", retTy := .voidT, paramTys := [] }
  (params.enum).foldl
    (fun c ip =>
      let argTy := fn.paramTys.getD ip.1 (.int 64)
      let (aid, c1) := c.entryAlloca fnIdx argTy ip.2.1
      let c2 := c1.emit (Instr.store
        (Option.some (IRValue.funcArg fnIdx ip.1 argTy)) (IRValue.inst aid (.pointer argTy)))
      { c2 with namedValues := mapInsert ip.2.1 (aid, argTy) c2.namedValues })
    cg2

/-- The epilogue of `visit(FunctionStmt&)`: if the current block has no
terminator, fabricate a return — `ret void` when the declared (source)
return type is `void`, `ret 0` when the IR return type is an integer type,
`ret undef` otherwise. -/
def cgFuncEpilogue (cg : CG) (retName : String) (retTy : IRType) : CG :=
  if cg.curTerminated then cg
  else if retName = "void" then cg.emit (Instr.ret Option.none)
  else
    match retTy with
    | .int w => cg.emit (Instr.ret (Option.some (IRValue.constInt w 0)))
    | _ => cg.emit (Instr.ret (Option.some (IRValue.undef retTy)))

/-- Restore the saved insertion point (when there was one) and the saved
`namedValues`, as at the end of `visit(FunctionStmt&)`. -/
def cgFuncRestore (cg : CG) (oldBB : Option Nat)
    (oldNamedValues : List (String × (Nat × IRType))) : CG :=
  let cg1 := match oldBB with
    | Option.some b => cg.setIP b
    | Option.none => cg
  { cg1 with namedValues := oldNamedValues }

mutual

/-- The statement-lowering half of the CodeGen visitor. -/
def genStmt (cg : CG) : Stmt → CG
  | .exprStmt e => genExpr (exprFuel e) cg e
  | .ret v =>
    (match v with
     | Option.some e =>
       let cg1 := genExpr (exprFuel e) cg e
       -- CreateRet(lastValue); a null lastValue would crash a real LLVM
       -- build, and is conflated with `ret void` here.
       cg1.emit (Instr.ret cg1.lastValue)
     | Option.none => cg.emit (Instr.ret Option.none))
  | .ifStmt c t e =>
    let cg1 := genExpr (exprFuel c) cg c
    (match cg1.lastValue with
     | Option.none => cg1
     | Option.some condV0 =>
       let w := cg1.widenCond condV0 "ifcond"
       let fnIdx := w.2.curParent
       let nb1 := w.2.newBlock "then" (Option.some fnIdx)
       let nb2 := nb1.2.newBlock "else" Option.none
       let nb3 := nb2.2.newBlock "ifcont" Option.none
       let hasElse := (match e with | .none => false | .some _ => true)
       let cg6 := nb3.2.emit (Instr.condBr w.1 nb1.1 (if hasElse then nb2.1 else nb3.1))
       let cg7 := cg6.setIP nb1.1
       let cg8 := genStmtList cg7 t
       let cg9 := if cg8.curTerminated then cg8 else cg8.emit (Instr.br nb3.1)
       let cgA := (match e with
         | .none => cg9
         | .some b =>
           let c1 := (cg9.attachTo nb2.1 fnIdx).setIP nb2.1
           let c2 := genStmtList c1 b
           if c2.curTerminated then c2 else c2.emit (Instr.br nb3.1))
       (cgA.attachTo nb3.1 fnIdx).setIP nb3.1)
  | .whileStmt c b =>
    let fnIdx := cg.curParent
    let nb1 := cg.newBlock "whilecond" (Option.some fnIdx)
    let nb2 := nb1.2.newBlock "whilebody" Option.none
    let nb3 := nb2.2.newBlock "afterwhile" Option.none
    let cg4 := nb3.2.emit (Instr.br nb1.1)
    let cg5 := cg4.setIP nb1.1
    let cg6 := genExpr (exprFuel c) cg5 c
    (match cg6.lastValue with
     | Option.none => cg6
     | Option.some condV0 =>
       let w := cg6.widenCond condV0 "loopcond"
       let cg8 := w.2.emit (Instr.condBr w.1 nb2.1 nb3.1)
       let cg9 := (cg8.attachTo nb2.1 fnIdx).setIP nb2.1
       let cgA := genStmtList cg9 b
       let cgB := if cgA.curTerminated then cgA else cgA.emit (Instr.br nb1.1)
       ((cgB.attachTo nb3.1 fnIdx).setIP nb3.1))
  | .varDecl name typeName init =>
    let fnIdx := cg.curParent
    let res := (match init with
      | Option.some i => let c := genExpr (exprFuel i) cg i; (c, c.lastValue)
      | Option.none => (cg, Option.none))
    let varTy? := if typeName ≠ "" then Option.some (getIRType res.1.structTypes typeName)
      else (match res.2 with
            | Option.some v => Option.some v.ty
            | Option.none => Option.none)
    (match varTy? with
     | Option.none => res.1
     | Option.some varTy =>
       let al := res.1.entryAlloca fnIdx varTy name
       let allocaVal := IRValue.inst al.1 (.pointer varTy)
       let cg3 := (match res.2 with
         | Option.some v => al.2.emit (Instr.store (Option.some v) allocaVal)
         | Option.none => al.2.emit (Instr.store (Option.some (IRValue.constNull varTy)) allocaVal))
       { cg3 with namedValues := mapInsert name (al.1, varTy) cg3.namedValues })
  | .funcDecl name params retName body => genFunctionStmt cg name params retName body
  | .structDecl name fields => genStructDecl cg name fields

/-- `CodeGen::visit(FunctionStmt&)`: create the function; an absent body is
an extern prototype; otherwise save the insertion point and `namedValues`,
run prologue, body and epilogue, verify (a no-op here) and restore. -/
def genFunctionStmt (cg : CG) (name : String) (params : List (String × String))
    (retName : String) (body : OptBlock) : CG :=
  let res := cgFuncCreate cg name params retName
  match body with
  | .none => res.2
  | .some b =>
    let oldBB := res.2.insertPt
    let oldNamed := res.2.namedValues
    let cg2 := cgFuncPrologue res.2 res.1 params
    let cg3 := genStmtList cg2 b
    let retTy := ((cg3.funcAt res.1).map (fun f => f.retTy)).getD .voidT
    let cg4 := cgFuncEpilogue cg3 retName retTy
    cgFuncRestore cg4 oldBB oldNamed

/-- Lower a statement sequence (`visit(Block&)` / the `generate` loop). -/
def genStmtList (cg : CG) : StmtList → CG
  | .nil => cg
  | .cons s sl => genStmtList (genStmt cg s) sl

end

/-- The scan for a user-defined `main` at the head of `CodeGen::generate`
(any `FunctionStmt` so named, externs included). -/
def userDeclaredMain : StmtList → Bool
  | .nil => false
  | .cons s sl =>
    (match s with
     | .funcDecl n _ _ _ => n = "main"
     | _ => false) || userDeclaredMain sl

/-- `CodeGen::generate`: create the implicit entry function — named `main`,
or `__init` when the user declared a `main` — with signature `() -> i64`,
enter its `entry` block, lower all top-level statements, and fabricate
`ret 0` if the final block is unterminated. -/
def generate (stmts : StmtList) : CG :=
  let hasUserMain := userDeclaredMain stmts
  let entryName := if hasUserMain then "__init" else "main"
  let res := initialCG.addFunction { name := entryName, retTy := .int 64, paramTys := [] }
  let res2 := res.2.newBlock "entry" (Option.some res.1)
  let cg3 := res2.2.setIP res2.1
  let cg4 := genStmtList cg3 stmts
  if cg4.curTerminated then cg4
  else cg4.emit (Instr.ret (Option.some (IRValue.constInt 64 0)))

/-- Does the generated module contain a function with this name? -/
def CG.containsFunc (cg : CG) (name : String) : Bool :=
  cg.functions.any (fun f => f.name = name)

end PyNext

namespace PyNext

/-! ## Auxiliary definitions used by the verification

`identTok`/`eqTok` build concrete parser input tokens; `TokStep`, `FuncPres`,
`fabricatedReturn` and `cgAfterBody` package states of the lexer round-trip
and CodeGen proofs. -/

/-- An identifier token as the lexer hands it to the parser. -/
def identTok (s : String) : Token :=
  { kind := TokenKind.identifier, text := s.data, line := 1, column := 1 }

/-- An assignment-operator token. -/
def eqTok : Token :=
  { kind := TokenKind.equal, text := "=".data, line := 1, column := 1 }

/-- What one non-EOF round of the character switch establishes, relative to
the position `pA` where the token's slice begins: same source, a non-EOF
kind, strict progress within bounds, the token text is exactly the consumed
slice, and `stripSpec` of the remaining input factors through the token. -/
def TokStep (src : List Char) (pA : Nat) (r : Token × Lexer) : Prop :=
  r.2.source = src ∧
  r.1.kind ≠ TokenKind.endOfFile ∧
  pA < r.2.position ∧
  r.2.position ≤ src.length ∧
  r.1.text = (src.drop pA).take (r.2.position - pA) ∧
  stripSpecGo false (src.drop pA) =
    r.1.text ++ stripSpecGo false (src.drop r.2.position)

def FuncPres (a b : CG) : Prop :=
  ∀ (i : Nat) (f : IRFunc), a.functions[i]? = Option.some f →
    b.functions[i]? = Option.some f

/-- The fabricated return the epilogue appends, as the specification
describes it: `ret void` for a declared void return type, `ret 0` for an
integer IR return type, `ret undef` otherwise. -/
def fabricatedReturn (retName : String) (retTy : IRType) : Instr :=
  if retName = "void" then Instr.ret Option.none
  else
    match retTy with
    | .int w => Instr.ret (Option.some (IRValue.constInt w 0))
    | _ => Instr.ret (Option.some (IRValue.undef retTy))

/-- The state after lowering a defined function's body: function created,
prologue run, body lowered; the epilogue's terminator check inspects this
state. -/
def cgAfterBody (cg : CG) (name : String) (params : List (String × String))
    (retName : String) (body : StmtList) : CG :=
  genStmtList
    (cgFuncPrologue (cgFuncCreate cg name params retName).2
      (cgFuncCreate cg name params retName).1 params)
    body

end PyNext

namespace PyNext

theorem advance_source (lx : Lexer) : lx.advance.source = lx.source := by
  unfold Lexer.advance
  split
  · split <;> rfl
  · rfl

theorem advance_startPosition (lx : Lexer) : lx.advance.startPosition = lx.startPosition := by
  unfold Lexer.advance
  split
  · split <;> rfl
  · rfl

theorem advance_position_lt (lx : Lexer) (h : lx.position < lx.source.length) :
    lx.advance.position = lx.position + 1 := by
  unfold Lexer.advance
  rw [dif_pos h]
  split <;> rfl

theorem peek_eq_getD (lx : Lexer) : lx.peek = lx.source.getD lx.position nulChar := rfl

theorem peek_of_lt (lx : Lexer) (h : lx.position < lx.source.length) :
    lx.peek = lx.source[lx.position] := by
  rw [peek_eq_getD]
  exact List.getD_eq_getElem lx.source nulChar h

theorem peek_of_ge (lx : Lexer) (h : lx.source.length ≤ lx.position) :
    lx.peek = nulChar := by
  rw [peek_eq_getD]
  unfold List.getD
  rw [List.get?_eq_none.mpr h]
  rfl

theorem peek_mem (lx : Lexer) (h : lx.position < lx.source.length) :
    lx.peek ∈ lx.source := by
  rw [peek_of_lt lx h]
  exact lx.source.getElem_mem h

/-- Position of the scanner after a `while (pred(peek)) advance()` loop,
with enough fuel: the length of the matching prefix of the remaining
input.  The source and the start position are untouched. -/
theorem scanWhile_spec (pred : Char → Bool) (hnul : pred nulChar = false) :
    ∀ (fuel : Nat) (lx : Lexer), lx.position ≤ lx.source.length →
      lx.source.length - lx.position < fuel →
      (scanWhile pred fuel lx).source = lx.source ∧
      (scanWhile pred fuel lx).startPosition = lx.startPosition ∧
      (scanWhile pred fuel lx).position =
        lx.position + ((lx.source.drop lx.position).takeWhile pred).length := by
  intro fuel
  induction fuel with
  | zero => intro lx hp hf; omega
  | succ fuel ih =>
    intro lx hp hf
    by_cases hpr : pred lx.peek = true
    · have hlt : lx.position < lx.source.length := by
        rcases Nat.lt_or_ge lx.position lx.source.length with h | h
        · exact h
        · rw [peek_of_ge lx h, hnul] at hpr
          exact absurd hpr (by simp)
      have hdrop : lx.source.drop lx.position =
          lx.peek :: lx.source.drop (lx.position + 1) := by
        rw [peek_of_lt lx hlt]
        exact List.drop_eq_getElem_cons hlt
      have hadv : lx.advance.position = lx.position + 1 := advance_position_lt lx hlt
      have ihr := ih lx.advance (by rw [hadv, advance_source]; omega)
        (by rw [hadv, advance_source]; omega)
      obtain ⟨ih1, ih2, ih3⟩ := ihr
      simp only [scanWhile, if_pos hpr]
      refine ⟨?_, ?_, ?_⟩
      · rw [ih1, advance_source]
      · rw [ih2, advance_startPosition]
      · rw [ih3, hadv, advance_source, hdrop, List.takeWhile_cons_of_pos hpr]
        simp only [List.length_cons]
        omega
    · simp only [scanWhile, if_neg hpr]
      refine ⟨by trivial, by trivial, ?_⟩
      rcases Nat.lt_or_ge lx.position lx.source.length with h | h
      · have hdrop : lx.source.drop lx.position =
            lx.peek :: lx.source.drop (lx.position + 1) := by
          rw [peek_of_lt lx h]
          exact List.drop_eq_getElem_cons h
        rw [hdrop, List.takeWhile_cons_of_neg (by simpa using hpr)]
        rfl
      · rw [List.drop_eq_nil_of_le h]
        rfl

/-- A character class that rejects the six whitespace characters and `#`
contains only characters that survive `stripSpec` unchanged. -/
theorem plain_of_class (p : Char → Bool) (h1 : p ' ' = false) (h2 : p '\t' = false)
    (h3 : p '\n' = false) (h4 : p (Char.ofNat 11) = false) (h5 : p (Char.ofNat 12) = false)
    (h6 : p '\r' = false) (h7 : p '#' = false) :
    ∀ c, p c = true → isSpaceC c = false ∧ c ≠ '#' := by
  intro c hc
  constructor
  · by_contra hs
    rw [Bool.not_eq_false] at hs
    simp only [isSpaceC, Bool.or_eq_true, decide_eq_true_eq] at hs
    rcases hs with ((((hs | hs) | hs) | hs) | hs) | hs <;> (subst hs; simp_all)
  · intro hh
    subst hh
    rw [h7] at hc
    exact Bool.noConfusion hc

theorem strip_append_plain :
    ∀ (xs r : List Char), (∀ c ∈ xs, isSpaceC c = false ∧ c ≠ '#') →
      stripSpecGo false (xs ++ r) = xs ++ stripSpecGo false r
  | [], r, _ => rfl
  | c :: xs, r, h => by
    have hc := h c (List.mem_cons_self c xs)
    simp only [List.cons_append, stripSpecGo, hc.1]
    rw [if_neg (by simp), if_neg hc.2]
    have := strip_append_plain xs r (fun d hd => h d (List.mem_cons_of_mem c hd))
    simp only [List.append_eq] at this ⊢
    rw [this]

theorem stripGo_true_eq (l : List Char) :
    stripSpecGo true l = stripSpecGo false (l.dropWhile (fun c => c ≠ '\n')) := by
  induction l with
  | nil => rfl
  | cons c t ih =>
    by_cases hc : c = '\n'
    · subst hc
      simp only [stripSpecGo, if_pos rfl, List.dropWhile_cons]
      simp [stripSpecGo, isSpaceC]
    · simp only [stripSpecGo, if_neg hc, List.dropWhile_cons]
      rw [if_pos (by simpa using hc)]
      exact ih

/-- One source suffix decomposition step: a consumed slice of plain
characters moves out of `stripSpec`. -/
theorem strip_slice_step (src : List Char) (p1 p2 : Nat) (hle : p1 ≤ p2)
    (h2 : p2 ≤ src.length)
    (hplain : ∀ c ∈ (src.drop p1).take (p2 - p1), isSpaceC c = false ∧ c ≠ '#') :
    stripSpecGo false (src.drop p1) =
      (src.drop p1).take (p2 - p1) ++ stripSpecGo false (src.drop p2) := by
  have hsplit : src.drop p1 = (src.drop p1).take (p2 - p1) ++ src.drop p2 := by
    have h0 := List.take_append_drop (p2 - p1) (src.drop p1)
    rw [List.drop_drop, Nat.add_comm p1 (p2 - p1), Nat.sub_add_cancel hle] at h0
    exact h0.symm
  calc stripSpecGo false (src.drop p1)
      = stripSpecGo false ((src.drop p1).take (p2 - p1) ++ src.drop p2) := by rw [← hsplit]
    _ = (src.drop p1).take (p2 - p1) ++ stripSpecGo false (src.drop p2) :=
        strip_append_plain _ _ hplain

theorem takeWhile_congr_mem (p q : Char → Bool) :
    ∀ l : List Char, (∀ c ∈ l, p c = q c) → l.takeWhile p = l.takeWhile q
  | [], _ => rfl
  | c :: t, h => by
    have hc := h c (List.mem_cons_self c t)
    by_cases hp : p c = true
    · rw [List.takeWhile_cons_of_pos hp, List.takeWhile_cons_of_pos (by rw [← hc]; exact hp)]
      rw [takeWhile_congr_mem p q t (fun d hd => h d (List.mem_cons_of_mem c hd))]
    · rw [List.takeWhile_cons_of_neg (by simpa using hp),
        List.takeWhile_cons_of_neg (by rw [← hc]; simpa using hp)]

theorem dropWhile_congr_mem (p q : Char → Bool) :
    ∀ l : List Char, (∀ c ∈ l, p c = q c) → l.dropWhile p = l.dropWhile q
  | [], _ => rfl
  | c :: t, h => by
    have hc := h c (List.mem_cons_self c t)
    by_cases hp : p c = true
    · rw [List.dropWhile_cons_of_pos hp, List.dropWhile_cons_of_pos (by rw [← hc]; exact hp)]
      exact dropWhile_congr_mem p q t (fun d hd => h d (List.mem_cons_of_mem c hd))
    · rw [List.dropWhile_cons_of_neg (by simpa using hp),
        List.dropWhile_cons_of_neg (by rw [← hc]; simpa using hp)]

theorem dropWhile_eq_drop_len (p : Char → Bool) :
    ∀ l : List Char, l.dropWhile p = l.drop (l.takeWhile p).length
  | [] => rfl
  | c :: t => by
    by_cases hp : p c = true
    · rw [List.dropWhile_cons_of_pos hp, List.takeWhile_cons_of_pos hp]
      simp only [List.length_cons, List.drop_succ_cons]
      exact dropWhile_eq_drop_len p t
    · rw [List.dropWhile_cons_of_neg (by simpa using hp),
        List.takeWhile_cons_of_neg (by simpa using hp)]
      rfl

theorem len_takeWhile_le (p : Char → Bool) :
    ∀ l : List Char, (l.takeWhile p).length ≤ l.length
  | [] => Nat.le_refl _
  | c :: t => by
    by_cases hp : p c = true
    · rw [List.takeWhile_cons_of_pos hp]
      exact Nat.succ_le_succ (len_takeWhile_le p t)
    · rw [List.takeWhile_cons_of_neg (by simpa using hp)]
      exact Nat.zero_le _

theorem skipWhitespace_spec : ∀ (fuel : Nat) (lx : Lexer), nulChar ∉ lx.source →
    lx.position ≤ lx.source.length → lx.source.length - lx.position < fuel →
    (skipWhitespace fuel lx).source = lx.source ∧
    (skipWhitespace fuel lx).startPosition = lx.startPosition ∧
    lx.position ≤ (skipWhitespace fuel lx).position ∧
    (skipWhitespace fuel lx).position ≤ lx.source.length ∧
    stripSpecGo false (lx.source.drop lx.position) =
      stripSpecGo false (lx.source.drop (skipWhitespace fuel lx).position) ∧
    isSpaceC (skipWhitespace fuel lx).peek = false ∧
    (skipWhitespace fuel lx).peek ≠ '#' := by
  intro fuel
  induction fuel with
  | zero => intro lx _ hp hf; omega
  | succ fuel ih =>
    intro lx hnn hp hf
    by_cases hsp : isSpaceC lx.peek = true
    · have hlt : lx.position < lx.source.length := by
        rcases Nat.lt_or_ge lx.position lx.source.length with h | h
        · exact h
        · rw [peek_of_ge lx h] at hsp
          exact absurd hsp (by decide)
      have hdrop : lx.source.drop lx.position =
          lx.peek :: lx.source.drop (lx.position + 1) := by
        rw [peek_of_lt lx hlt]
        exact List.drop_eq_getElem_cons hlt
      have hadv : lx.advance.position = lx.position + 1 := advance_position_lt lx hlt
      have hws : skipWhitespace (fuel + 1) lx = skipWhitespace fuel lx.advance := by
        simp only [skipWhitespace, hsp, if_pos]
      obtain ⟨i1, i2, i3, i4, i5, i6, i7⟩ := ih lx.advance
        (by rw [advance_source]; exact hnn)
        (by rw [hadv, advance_source]; omega) (by rw [hadv, advance_source]; omega)
      rw [advance_source] at i1 i4 i5
      rw [advance_startPosition] at i2
      rw [hadv] at i3 i5
      refine ⟨by rw [hws, i1], by rw [hws, i2], by rw [hws]; omega,
        by rw [hws]; exact i4, ?_, by rw [hws]; exact i6, by rw [hws]; exact i7⟩
      rw [hws, ← i5, hdrop]
      simp only [stripSpecGo, hsp, if_pos]
    · by_cases hhash : lx.peek = '#'
      · have hlt : lx.position < lx.source.length := by
          rcases Nat.lt_or_ge lx.position lx.source.length with h | h
          · exact h
          · rw [peek_of_ge lx h] at hhash
            exact absurd hhash (by decide)
        have hdrop : lx.source.drop lx.position =
            '#' :: lx.source.drop (lx.position + 1) := by
          rw [← hhash, peek_of_lt lx hlt]
          exact List.drop_eq_getElem_cons hlt
        obtain ⟨s1, s2, s3⟩ := scanWhile_spec commentPred (by decide)
          (lx.source.length + 1) lx hp (by omega)
        have hk : ((lx.source.drop lx.position).takeWhile commentPred).length =
            ((lx.source.drop (lx.position + 1)).takeWhile commentPred).length + 1 := by
          rw [hdrop, List.takeWhile_cons_of_pos (by decide)]
          rfl
        have hklen : ((lx.source.drop (lx.position + 1)).takeWhile commentPred).length ≤
            (lx.source.drop (lx.position + 1)).length :=
          len_takeWhile_le _ _
        have hdlen : (lx.source.drop (lx.position + 1)).length =
            lx.source.length - (lx.position + 1) := List.length_drop _ _
        have hpos' : (scanWhile commentPred (lx.source.length + 1) lx).position ≤
            lx.source.length := by
          rw [s3, hk]
          omega
        have hws : skipWhitespace (fuel + 1) lx =
            skipWhitespace fuel (scanWhile commentPred (lx.source.length + 1) lx) := by
          simp only [skipWhitespace]
          rw [if_neg (by simpa using hsp), if_pos hhash]
        obtain ⟨i1, i2, i3, i4, i5, i6, i7⟩ :=
          ih (scanWhile commentPred (lx.source.length + 1) lx)
            (by rw [s1]; exact hnn) (by rw [s1]; exact hpos')
            (by rw [s1, s3, hk]; omega)
        rw [s1] at i1 i4 i5
        rw [s2] at i2
        rw [s3] at i3 i5
        refine ⟨by rw [hws, i1], by rw [hws, i2], by rw [hws]; omega,
          by rw [hws]; exact i4, ?_, by rw [hws]; exact i6, by rw [hws]; exact i7⟩
        rw [hws, ← i5]
        -- strip over the comment: drop to after the comment prefix
        have hdw : lx.source.drop
            (lx.position + ((lx.source.drop lx.position).takeWhile commentPred).length) =
            (lx.source.drop lx.position).dropWhile commentPred := by
          rw [dropWhile_eq_drop_len, List.drop_drop, Nat.add_comm]
        rw [hdw, hdrop]
        rw [List.dropWhile_cons_of_pos (by decide)]
        have hcongr : (lx.source.drop (lx.position + 1)).dropWhile commentPred =
            (lx.source.drop (lx.position + 1)).dropWhile (fun c => c ≠ '\n') := by
          refine dropWhile_congr_mem _ _ _ (fun c hc => ?_)
          have hcm : c ∈ lx.source := List.mem_of_mem_drop hc
          have hcnn : c ≠ nulChar := fun he => hnn (he ▸ hcm)
          simp [commentPred, hcnn]
        rw [hcongr]
        simp only [stripSpecGo, if_neg (by decide : ¬isSpaceC '#' = true),
          if_pos (rfl : '#' = '#')]
        exact (stripGo_true_eq _)
      · have hws : skipWhitespace (fuel + 1) lx = lx := by
          simp only [skipWhitespace]
          rw [if_neg (by simpa using hsp), if_neg hhash]
        rw [hws]
        exact ⟨rfl, rfl, Nat.le_refl _, hp, rfl, by simpa using hsp, hhash⟩

theorem takeWhile_eq_take_len (p : Char → Bool) :
    ∀ l : List Char, l.takeWhile p = l.take (l.takeWhile p).length
  | [] => rfl
  | c :: t => by
    by_cases hp : p c = true
    · rw [List.takeWhile_cons_of_pos hp]
      simp only [List.length_cons, List.take_succ_cons]
      rw [← takeWhile_eq_take_len p t]
    · rw [List.takeWhile_cons_of_neg (by simpa using hp)]
      rfl

theorem take_slice_split (src : List Char) (p1 p2 p3 : Nat) (h12 : p1 ≤ p2)
    (h23 : p2 ≤ p3) (h2l : p2 ≤ src.length) :
    (src.drop p1).take (p3 - p1) =
      (src.drop p1).take (p2 - p1) ++ (src.drop p2).take (p3 - p2) := by
  have hsum : p3 - p1 = (p2 - p1) + (p3 - p2) := by omega
  rw [hsum, List.take_add, List.drop_drop]
  have hp : p1 + (p2 - p1) = p2 := by omega
  rw [hp]

theorem pos_lt_of_peek_ne_nul (lx : Lexer) (h : lx.peek ≠ nulChar) :
    lx.position < lx.source.length := by
  rcases Nat.lt_or_ge lx.position lx.source.length with hl | hl
  · exact hl
  · exact absurd (peek_of_ge lx hl) h

theorem tokStep_atom1 (lx : Lexer) (k : TokenKind) (hk : k ≠ TokenKind.endOfFile)
    (hstart : lx.startPosition = lx.position) (hlt : lx.position < lx.source.length)
    (hplain : isSpaceC lx.peek = false ∧ lx.peek ≠ '#') :
    TokStep lx.source lx.position (lx.advance.atom k, lx.advance) := by
  have hadv := advance_position_lt lx hlt
  have hsrc := advance_source lx
  have hsp := advance_startPosition lx
  have hdrop : lx.source.drop lx.position = lx.peek :: lx.source.drop (lx.position + 1) := by
    rw [peek_of_lt lx hlt]
    exact List.drop_eq_getElem_cons hlt
  have hslice : (lx.source.drop lx.position).take (lx.position + 1 - lx.position) =
      [lx.peek] := by
    rw [Nat.add_sub_cancel_left, hdrop, List.take_succ_cons, List.take_zero]
  have htext : (lx.advance.atom k).text =
      (lx.source.drop lx.position).take (lx.position + 1 - lx.position) := by
    simp only [Lexer.atom]
    rw [hsrc, hsp, hstart, hadv]
  unfold TokStep
  refine ⟨hsrc, by simp [Lexer.atom, hk],
    by show lx.position < lx.advance.position; omega,
    by show lx.advance.position ≤ lx.source.length; omega,
    by
      show (lx.advance.atom k).text =
        (lx.source.drop lx.position).take (lx.advance.position - lx.position)
      rw [htext, hadv], ?_⟩
  show stripSpecGo false (lx.source.drop lx.position) =
    (lx.advance.atom k).text ++ stripSpecGo false (lx.source.drop lx.advance.position)
  rw [htext, hadv, hslice]
  have := strip_slice_step lx.source lx.position (lx.position + 1) (by omega) (by omega)
    (by
      rw [hslice]
      intro c hc
      rw [List.mem_singleton] at hc
      subst hc
      exact hplain)
  rw [hslice] at this
  exact this

theorem tokStep_atom2 (lx : Lexer) (k : TokenKind) (hk : k ≠ TokenKind.endOfFile)
    (hstart : lx.startPosition = lx.position) (hlt : lx.position < lx.source.length)
    (hlt2 : lx.position + 1 < lx.source.length)
    (hplain1 : isSpaceC lx.peek = false ∧ lx.peek ≠ '#')
    (hplain2 : isSpaceC lx.advance.peek = false ∧ lx.advance.peek ≠ '#') :
    TokStep lx.source lx.position (lx.advance.advance.atom k, lx.advance.advance) := by
  have hadv := advance_position_lt lx hlt
  have hsrc := advance_source lx
  have hsp := advance_startPosition lx
  have hadv2 : lx.advance.advance.position = lx.position + 2 := by
    have := advance_position_lt lx.advance (by rw [hadv, hsrc]; exact hlt2)
    rw [hadv] at this
    omega
  have hsrc2 : lx.advance.advance.source = lx.source := by
    rw [advance_source, hsrc]
  have hsp2 : lx.advance.advance.startPosition = lx.position := by
    rw [advance_startPosition, hsp, hstart]
  have hpk2 : lx.advance.peek = lx.source[lx.position + 1] := by
    rw [peek_of_lt lx.advance (by rw [hadv, hsrc]; exact hlt2)]
    congr 1 <;> rw [hadv, hsrc]
  have hdrop : lx.source.drop lx.position = lx.peek :: lx.source.drop (lx.position + 1) := by
    rw [peek_of_lt lx hlt]
    exact List.drop_eq_getElem_cons hlt
  have hdrop2 : lx.source.drop (lx.position + 1) =
      lx.advance.peek :: lx.source.drop (lx.position + 2) := by
    rw [hpk2]
    exact List.drop_eq_getElem_cons hlt2
  have hslice : (lx.source.drop lx.position).take (lx.position + 2 - lx.position) =
      [lx.peek, lx.advance.peek] := by
    have h2 : lx.position + 2 - lx.position = 2 := by omega
    rw [h2, hdrop, hdrop2, List.take_succ_cons, List.take_succ_cons, List.take_zero]
  have htext : (lx.advance.advance.atom k).text =
      (lx.source.drop lx.position).take (lx.position + 2 - lx.position) := by
    simp only [Lexer.atom]
    rw [hsrc2, hsp2, hadv2]
  unfold TokStep
  refine ⟨hsrc2, by simp [Lexer.atom, hk],
    by show lx.position < lx.advance.advance.position; omega,
    by show lx.advance.advance.position ≤ lx.source.length; omega,
    by
      show (lx.advance.advance.atom k).text =
        (lx.source.drop lx.position).take (lx.advance.advance.position - lx.position)
      rw [htext, hadv2], ?_⟩
  show stripSpecGo false (lx.source.drop lx.position) =
    (lx.advance.advance.atom k).text ++
      stripSpecGo false (lx.source.drop lx.advance.advance.position)
  rw [htext, hadv2, hslice]
  have := strip_slice_step lx.source lx.position (lx.position + 2) (by omega) (by omega)
    (by
      rw [hslice]
      intro c hc
      rcases List.mem_pair.mp hc with hc | hc <;> (subst hc; first | exact hplain1 | exact hplain2))
  rw [hslice] at this
  exact this

theorem ite_ne_eof {c : Prop} [inst : Decidable c] {a b : TokenKind}
    (ha : a ≠ TokenKind.endOfFile) (hb : b ≠ TokenKind.endOfFile) :
    (if c then a else b) ≠ TokenKind.endOfFile := by
  by_cases h : c
  · rw [if_pos h]
    exact ha
  · rw [if_neg h]
    exact hb

theorem keywordKind_ne_eof (text : List Char) :
    keywordKind text ≠ TokenKind.endOfFile := by
  unfold keywordKind
  repeat' refine ite_ne_eof (by decide) ?_
  decide

theorem tokStep_identifierTok (lx : Lexer) (hstart : lx.startPosition = lx.position)
    (hlt : lx.position < lx.source.length)
    (hplain : isSpaceC lx.peek = false ∧ lx.peek ≠ '#') :
    TokStep lx.source lx.position lx.advance.identifierTok := by
  have hadv := advance_position_lt lx hlt
  have hsrc := advance_source lx
  have hsp := advance_startPosition lx
  obtain ⟨w1, w2, w3⟩ := scanWhile_spec identPred (by decide)
    (lx.advance.source.length + 1) lx.advance
    (by rw [hadv, hsrc]; omega) (by omega)
  have h2nd : (Lexer.identifierTok lx.advance).2 =
      scanWhile identPred (lx.advance.source.length + 1) lx.advance := rfl
  have h1text : (Lexer.identifierTok lx.advance).1.text =
      ((scanWhile identPred (lx.advance.source.length + 1) lx.advance).source.drop
        (scanWhile identPred (lx.advance.source.length + 1) lx.advance).startPosition).take
        ((scanWhile identPred (lx.advance.source.length + 1) lx.advance).position -
          (scanWhile identPred (lx.advance.source.length + 1) lx.advance).startPosition) := rfl
  have hkind : (Lexer.identifierTok lx.advance).1.kind ≠ TokenKind.endOfFile := by
    simp only [Lexer.identifierTok, Lexer.atom]
    exact keywordKind_ne_eof _
  generalize hG : scanWhile identPred (lx.advance.source.length + 1) lx.advance = L1
    at w1 w2 w3 h2nd h1text
  rw [hsrc] at w1
  rw [hsp, hstart] at w2
  rw [hadv, hsrc] at w3
  have kbound : ((lx.source.drop (lx.position + 1)).takeWhile identPred).length ≤
      lx.source.length - (lx.position + 1) := by
    have h := len_takeWhile_le identPred (lx.source.drop (lx.position + 1))
    rw [List.length_drop] at h
    exact h
  have hdrop : lx.source.drop lx.position = lx.peek :: lx.source.drop (lx.position + 1) := by
    rw [peek_of_lt lx hlt]
    exact List.drop_eq_getElem_cons hlt
  have hslice : (lx.source.drop lx.position).take
      (lx.position + 1 + ((lx.source.drop (lx.position + 1)).takeWhile identPred).length -
        lx.position) =
      lx.peek :: (lx.source.drop (lx.position + 1)).takeWhile identPred := by
    have h1 : lx.position + 1 +
        ((lx.source.drop (lx.position + 1)).takeWhile identPred).length - lx.position =
        ((lx.source.drop (lx.position + 1)).takeWhile identPred).length + 1 := by omega
    rw [h1, hdrop, List.take_succ_cons]
    congr 1
    exact (takeWhile_eq_take_len identPred _).symm
  have hplainslice : ∀ c ∈ (lx.source.drop lx.position).take
      (lx.position + 1 + ((lx.source.drop (lx.position + 1)).takeWhile identPred).length -
        lx.position), isSpaceC c = false ∧ c ≠ '#' := by
    rw [hslice]
    intro c hc
    rcases List.mem_cons.mp hc with hc | hc
    · subst hc
      exact hplain
    · exact plain_of_class identPred (by decide) (by decide) (by decide) (by decide)
        (by decide) (by decide) (by decide) c (List.mem_takeWhile_imp hc)
  have hstrip := strip_slice_step lx.source lx.position
    (lx.position + 1 + ((lx.source.drop (lx.position + 1)).takeWhile identPred).length)
    (by omega) (by omega) hplainslice
  unfold TokStep
  refine ⟨by rw [h2nd, w1], hkind, by rw [h2nd, w3]; omega, by rw [h2nd, w3]; omega, ?_, ?_⟩
  · rw [h1text, h2nd, w1, w2, w3]
  · rw [h1text, h2nd, w1, w2, w3]
    exact hstrip

theorem tokStep_numberTok (lx : Lexer) (hstart : lx.startPosition = lx.position)
    (hlt : lx.position < lx.source.length) (hdig : isDigitC lx.peek = true) :
    TokStep lx.source lx.position lx.numberTok := by
  obtain ⟨w1, w2, w3⟩ := scanWhile_spec isDigitC (by decide)
    (lx.source.length + 1) lx (by omega) (by omega)
  have hdrop : lx.source.drop lx.position = lx.peek :: lx.source.drop (lx.position + 1) := by
    rw [peek_of_lt lx hlt]
    exact List.drop_eq_getElem_cons hlt
  have hk1 : (lx.source.drop lx.position).takeWhile isDigitC =
      lx.peek :: (lx.source.drop (lx.position + 1)).takeWhile isDigitC := by
    rw [hdrop, List.takeWhile_cons_of_pos hdig]
  have hk1len : 1 ≤ ((lx.source.drop lx.position).takeWhile isDigitC).length := by
    rw [hk1]
    simp
  have hk1b : ((lx.source.drop lx.position).takeWhile isDigitC).length ≤
      lx.source.length - lx.position := by
    have h := len_takeWhile_le isDigitC (lx.source.drop lx.position)
    rw [List.length_drop] at h
    exact h
  have hpd := plain_of_class isDigitC (by decide) (by decide) (by decide) (by decide)
    (by decide) (by decide) (by decide)
  have hsl : (lx.source.drop lx.position).take
      (lx.position + ((lx.source.drop lx.position).takeWhile isDigitC).length - lx.position) =
      (lx.source.drop lx.position).takeWhile isDigitC := by
    have h1 : lx.position + ((lx.source.drop lx.position).takeWhile isDigitC).length -
        lx.position = ((lx.source.drop lx.position).takeWhile isDigitC).length := by omega
    rw [h1]
    exact (takeWhile_eq_take_len isDigitC _).symm
  by_cases hdot : (scanWhile isDigitC (lx.source.length + 1) lx).peek = '.'
  case neg =>
    have heq : lx.numberTok = ((scanWhile isDigitC (lx.source.length + 1) lx).atom
        TokenKind.integer, scanWhile isDigitC (lx.source.length + 1) lx) := by
      simp only [Lexer.numberTok]
      rw [if_neg hdot]
    rw [heq]
    generalize hG : scanWhile isDigitC (lx.source.length + 1) lx = L1 at w1 w2 w3
    rw [hstart] at w2
    unfold TokStep
    refine ⟨w1, by simp [Lexer.atom],
      by show lx.position < L1.position; rw [w3]; omega,
      by show L1.position ≤ lx.source.length; rw [w3]; omega, ?_, ?_⟩
    · show (L1.atom TokenKind.integer).text =
        (lx.source.drop lx.position).take (L1.position - lx.position)
      simp only [Lexer.atom]
      rw [w1, w2, w3]
    · show stripSpecGo false (lx.source.drop lx.position) =
        (L1.atom TokenKind.integer).text ++
          stripSpecGo false (lx.source.drop L1.position)
      simp only [Lexer.atom]
      rw [w1, w2, w3]
      exact strip_slice_step lx.source lx.position
        (lx.position + ((lx.source.drop lx.position).takeWhile isDigitC).length)
        (by omega) (by omega)
        (by
          rw [hsl]
          intro c hc
          exact hpd c (List.mem_takeWhile_imp hc))
  case pos =>
    have hL1lt : (scanWhile isDigitC (lx.source.length + 1) lx).position <
        (scanWhile isDigitC (lx.source.length + 1) lx).source.length :=
      pos_lt_of_peek_ne_nul _ (by rw [hdot]; decide)
    have heq : lx.numberTok = ((scanWhile isDigitC
        ((scanWhile isDigitC (lx.source.length + 1) lx).advance.source.length + 1)
        (scanWhile isDigitC (lx.source.length + 1) lx).advance).atom TokenKind.float,
        scanWhile isDigitC
          ((scanWhile isDigitC (lx.source.length + 1) lx).advance.source.length + 1)
          (scanWhile isDigitC (lx.source.length + 1) lx).advance) := by
      simp only [Lexer.numberTok]
      rw [if_pos hdot]
    rw [heq]
    have hadv1s := advance_source (scanWhile isDigitC (lx.source.length + 1) lx)
    have hadv1p := advance_position_lt (scanWhile isDigitC (lx.source.length + 1) lx) hL1lt
    have hadv1st := advance_startPosition (scanWhile isDigitC (lx.source.length + 1) lx)
    obtain ⟨v1, v2, v3⟩ := scanWhile_spec isDigitC (by decide)
      ((scanWhile isDigitC (lx.source.length + 1) lx).advance.source.length + 1)
      (scanWhile isDigitC (lx.source.length + 1) lx).advance
      (by rw [hadv1p, hadv1s]; omega) (by omega)
    generalize hG2 : scanWhile isDigitC
        ((scanWhile isDigitC (lx.source.length + 1) lx).advance.source.length + 1)
        (scanWhile isDigitC (lx.source.length + 1) lx).advance = L3 at v1 v2 v3 ⊢
    rw [hadv1s] at v1
    rw [hadv1st] at v2
    rw [hadv1p, hadv1s] at v3
    generalize hG1 : scanWhile isDigitC (lx.source.length + 1) lx = L1
      at w1 w2 w3 v1 v2 v3 hdot hL1lt
    have hL1lt' := hL1lt
    rw [w1] at v1 v3 hL1lt
    rw [w2, hstart] at v2
    rw [w3] at v3 hL1lt
    have hmid : L1.peek = L1.source[L1.position] := peek_of_lt L1 hL1lt'
    simp only [w1, w3] at hmid
    have hdotv : lx.source[lx.position +
        ((lx.source.drop lx.position).takeWhile isDigitC).length] = '.' := by
      rw [← hmid, hdot]
    have hdropmid : lx.source.drop
        (lx.position + ((lx.source.drop lx.position).takeWhile isDigitC).length) =
        '.' :: lx.source.drop
          (lx.position + ((lx.source.drop lx.position).takeWhile isDigitC).length + 1) := by
      rw [← hdotv]
      exact List.drop_eq_getElem_cons hL1lt
    have hk2b : ((lx.source.drop
        (lx.position + ((lx.source.drop lx.position).takeWhile isDigitC).length + 1)).takeWhile
          isDigitC).length ≤
        lx.source.length -
          (lx.position + ((lx.source.drop lx.position).takeWhile isDigitC).length + 1) := by
      have h := len_takeWhile_le isDigitC (lx.source.drop
        (lx.position + ((lx.source.drop lx.position).takeWhile isDigitC).length + 1))
      rw [List.length_drop] at h
      exact h
    unfold TokStep
    refine ⟨v1, by simp [Lexer.atom],
      by show lx.position < L3.position; rw [v3]; omega,
      by show L3.position ≤ lx.source.length; rw [v3]; omega, ?_, ?_⟩
    · show (L3.atom TokenKind.float).text =
        (lx.source.drop lx.position).take (L3.position - lx.position)
      simp only [Lexer.atom]
      rw [v1, v2, v3]
    · show stripSpecGo false (lx.source.drop lx.position) =
        (L3.atom TokenKind.float).text ++ stripSpecGo false (lx.source.drop L3.position)
      simp only [Lexer.atom]
      rw [v1, v2, v3]
      have hs1 := take_slice_split lx.source lx.position
        (lx.position + ((lx.source.drop lx.position).takeWhile isDigitC).length)
        (lx.position + ((lx.source.drop lx.position).takeWhile isDigitC).length + 1 +
          ((lx.source.drop (lx.position +
            ((lx.source.drop lx.position).takeWhile isDigitC).length + 1)).takeWhile
              isDigitC).length)
        (by omega) (by omega) (by omega)
      have hs2 := take_slice_split lx.source
        (lx.position + ((lx.source.drop lx.position).takeWhile isDigitC).length)
        (lx.position + ((lx.source.drop lx.position).takeWhile isDigitC).length + 1)
        (lx.position + ((lx.source.drop lx.position).takeWhile isDigitC).length + 1 +
          ((lx.source.drop (lx.position +
            ((lx.source.drop lx.position).takeWhile isDigitC).length + 1)).takeWhile
              isDigitC).length)
        (by omega) (by omega) (by omega)
      have pieceM : (lx.source.drop
          (lx.position + ((lx.source.drop lx.position).takeWhile isDigitC).length)).take
          (lx.position + ((lx.source.drop lx.position).takeWhile isDigitC).length + 1 -
            (lx.position + ((lx.source.drop lx.position).takeWhile isDigitC).length)) =
          ['.'] := by
        have h1 : lx.position + ((lx.source.drop lx.position).takeWhile isDigitC).length + 1 -
            (lx.position + ((lx.source.drop lx.position).takeWhile isDigitC).length) = 1 := by
          omega
        rw [h1, hdropmid, List.take_succ_cons, List.take_zero]
      have pieceB : (lx.source.drop
          (lx.position + ((lx.source.drop lx.position).takeWhile isDigitC).length + 1)).take
          (lx.position + ((lx.source.drop lx.position).takeWhile isDigitC).length + 1 +
            ((lx.source.drop (lx.position +
              ((lx.source.drop lx.position).takeWhile isDigitC).length + 1)).takeWhile
                isDigitC).length -
            (lx.position + ((lx.source.drop lx.position).takeWhile isDigitC).length + 1)) =
          (lx.source.drop (lx.position +
            ((lx.source.drop lx.position).takeWhile isDigitC).length + 1)).takeWhile
              isDigitC := by
        have h1 : lx.position + ((lx.source.drop lx.position).takeWhile isDigitC).length + 1 +
            ((lx.source.drop (lx.position +
              ((lx.source.drop lx.position).takeWhile isDigitC).length + 1)).takeWhile
                isDigitC).length -
            (lx.position + ((lx.source.drop lx.position).takeWhile isDigitC).length + 1) =
            ((lx.source.drop (lx.position +
              ((lx.source.drop lx.position).takeWhile isDigitC).length + 1)).takeWhile
                isDigitC).length := by
          omega
        rw [h1]
        exact (takeWhile_eq_take_len isDigitC _).symm
      refine strip_slice_step lx.source lx.position
        (lx.position + ((lx.source.drop lx.position).takeWhile isDigitC).length + 1 +
          ((lx.source.drop (lx.position +
            ((lx.source.drop lx.position).takeWhile isDigitC).length + 1)).takeWhile
              isDigitC).length)
        (by omega) (by omega) ?_
      rw [hs1, hs2, hsl, pieceM, pieceB]
      intro c hc
      rcases List.mem_append.mp hc with hc | hc
      · exact hpd c (List.mem_takeWhile_imp hc)
      · rcases List.mem_append.mp hc with hc | hc
        · rw [List.mem_singleton] at hc
          subst hc
          decide
        · exact hpd c (List.mem_takeWhile_imp hc)

/-- The character switch of `Lexer::nextToken` after whitespace skipping:
either we are at end of input and the EOF token is produced in place, or
one token is produced and `TokStep` holds. -/
theorem nextTokenCore_spec (lx : Lexer) (hnq : '"' ∉ lx.source)
    (hstart : lx.startPosition = lx.position) (hp : lx.position ≤ lx.source.length)
    (hsp : isSpaceC lx.peek = false) (hh : lx.peek ≠ '#') :
    (lx.peek = nulChar ∧ lx.nextTokenCore = (lx.atom TokenKind.endOfFile, lx)) ∨
      TokStep lx.source lx.position lx.nextTokenCore := by
  by_cases hc0 : lx.peek = nulChar
  · left
    refine ⟨hc0, ?_⟩
    simp only [Lexer.nextTokenCore]
    rw [if_pos hc0]
  · right
    have hlt : lx.position < lx.source.length := pos_lt_of_peek_ne_nul lx hc0
    have hplain : isSpaceC lx.peek = false ∧ lx.peek ≠ '#' := ⟨hsp, hh⟩
    by_cases hal : (isAlphaC lx.peek || lx.peek = '_') = true
    · have heq : lx.nextTokenCore = lx.advance.identifierTok := by
        simp only [Lexer.nextTokenCore]
        rw [if_neg hc0, if_pos hal]
      rw [heq]
      exact tokStep_identifierTok lx hstart hlt hplain
    · by_cases hdg : isDigitC lx.peek = true
      · have heq : lx.nextTokenCore = lx.numberTok := by
          simp only [Lexer.nextTokenCore]
          rw [if_neg hc0, if_neg hal, if_pos hdg]
        rw [heq]
        exact tokStep_numberTok lx hstart hlt hdg
      · by_cases hq : lx.peek = '"'
        · exact absurd (hq ▸ peek_mem lx hlt) hnq
        · -- the operator switch
          by_cases hplus : lx.peek = '+'
          · have heq : lx.nextTokenCore = (lx.advance.atom TokenKind.plus, lx.advance) := by
              simp only [Lexer.nextTokenCore]
              rw [if_neg hc0, if_neg hal, if_neg hdg, if_neg hq, if_pos hplus]
            rw [heq]
            exact tokStep_atom1 lx TokenKind.plus (by decide) hstart hlt hplain
          · -- not '+'
            by_cases hstar : lx.peek = '*'
            · have heq : lx.nextTokenCore = (lx.advance.atom TokenKind.star, lx.advance) := by
                simp only [Lexer.nextTokenCore]
                rw [if_neg hc0, if_neg hal, if_neg hdg, if_neg hq, if_neg hplus, if_pos hstar]
              rw [heq]
              exact tokStep_atom1 lx TokenKind.star (by decide) hstart hlt hplain
            · -- not '*'
              by_cases hslash : lx.peek = '/'
              · have heq : lx.nextTokenCore = (lx.advance.atom TokenKind.slash, lx.advance) := by
                  simp only [Lexer.nextTokenCore]
                  rw [if_neg hc0, if_neg hal, if_neg hdg, if_neg hq, if_neg hplus, if_neg hstar, if_pos hslash]
                rw [heq]
                exact tokStep_atom1 lx TokenKind.slash (by decide) hstart hlt hplain
              · -- not '/'
                by_cases hlparen : lx.peek = '('
                · have heq : lx.nextTokenCore = (lx.advance.atom TokenKind.lparen, lx.advance) := by
                    simp only [Lexer.nextTokenCore]
                    rw [if_neg hc0, if_neg hal, if_neg hdg, if_neg hq, if_neg hplus, if_neg hstar, if_neg hslash, if_pos hlparen]
                  rw [heq]
                  exact tokStep_atom1 lx TokenKind.lparen (by decide) hstart hlt hplain
                · -- not '('
                  by_cases hrparen : lx.peek = ')'
                  · have heq : lx.nextTokenCore = (lx.advance.atom TokenKind.rparen, lx.advance) := by
                      simp only [Lexer.nextTokenCore]
                      rw [if_neg hc0, if_neg hal, if_neg hdg, if_neg hq, if_neg hplus, if_neg hstar, if_neg hslash, if_neg hlparen, if_pos hrparen]
                    rw [heq]
                    exact tokStep_atom1 lx TokenKind.rparen (by decide) hstart hlt hplain
                  · -- not ')'
                    by_cases hcomma : lx.peek = ','
                    · have heq : lx.nextTokenCore = (lx.advance.atom TokenKind.comma, lx.advance) := by
                        simp only [Lexer.nextTokenCore]
                        rw [if_neg hc0, if_neg hal, if_neg hdg, if_neg hq, if_neg hplus, if_neg hstar, if_neg hslash, if_neg hlparen, if_neg hrparen, if_pos hcomma]
                      rw [heq]
                      exact tokStep_atom1 lx TokenKind.comma (by decide) hstart hlt hplain
                    · -- not ','
                      by_cases hcolon : lx.peek = ':'
                      · have heq : lx.nextTokenCore = (lx.advance.atom TokenKind.colon, lx.advance) := by
                          simp only [Lexer.nextTokenCore]
                          rw [if_neg hc0, if_neg hal, if_neg hdg, if_neg hq, if_neg hplus, if_neg hstar, if_neg hslash, if_neg hlparen, if_neg hrparen, if_neg hcomma, if_pos hcolon]
                        rw [heq]
                        exact tokStep_atom1 lx TokenKind.colon (by decide) hstart hlt hplain
                      · -- not ':'
                        by_cases hdot : lx.peek = '.'
                        · have heq : lx.nextTokenCore = (lx.advance.atom TokenKind.dot, lx.advance) := by
                            simp only [Lexer.nextTokenCore]
                            rw [if_neg hc0, if_neg hal, if_neg hdg, if_neg hq, if_neg hplus, if_neg hstar, if_neg hslash, if_neg hlparen, if_neg hrparen, if_neg hcomma, if_neg hcolon, if_pos hdot]
                          rw [heq]
                          exact tokStep_atom1 lx TokenKind.dot (by decide) hstart hlt hplain
                        · -- not '.'
                          by_cases hlessThan : lx.peek = '<'
                          · have heq : lx.nextTokenCore = (lx.advance.atom TokenKind.lessThan, lx.advance) := by
                              simp only [Lexer.nextTokenCore]
                              rw [if_neg hc0, if_neg hal, if_neg hdg, if_neg hq, if_neg hplus, if_neg hstar, if_neg hslash, if_neg hlparen, if_neg hrparen, if_neg hcomma, if_neg hcolon, if_neg hdot, if_pos hlessThan]
                            rw [heq]
                            exact tokStep_atom1 lx TokenKind.lessThan (by decide) hstart hlt hplain
                          · -- not '<'
                            by_cases hgreaterThan : lx.peek = '>'
                            · have heq : lx.nextTokenCore = (lx.advance.atom TokenKind.greaterThan, lx.advance) := by
                                simp only [Lexer.nextTokenCore]
                                rw [if_neg hc0, if_neg hal, if_neg hdg, if_neg hq, if_neg hplus, if_neg hstar, if_neg hslash, if_neg hlparen, if_neg hrparen, if_neg hcomma, if_neg hcolon, if_neg hdot, if_neg hlessThan, if_pos hgreaterThan]
                              rw [heq]
                              exact tokStep_atom1 lx TokenKind.greaterThan (by decide) hstart hlt hplain
                            · -- not '>'
                              by_cases hminus : lx.peek = '-'
                              · -- '-' or '->'
                                by_cases harr : lx.advance.peek = '>'
                                · have heq : lx.nextTokenCore = (lx.advance.advance.atom TokenKind.arrow, lx.advance.advance) := by
                                    simp only [Lexer.nextTokenCore]
                                    rw [if_neg hc0, if_neg hal, if_neg hdg, if_neg hq, if_neg hplus, if_neg hstar, if_neg hslash, if_neg hlparen, if_neg hrparen, if_neg hcomma, if_neg hcolon, if_neg hdot, if_neg hlessThan, if_neg hgreaterThan, if_pos hminus, if_pos harr]
                                  rw [heq]
                                  have hlt2 : lx.position + 1 < lx.source.length := by
                                    have h2 := pos_lt_of_peek_ne_nul lx.advance (by rw [harr]; decide)
                                    rw [advance_position_lt lx hlt, advance_source] at h2
                                    omega
                                  exact tokStep_atom2 lx TokenKind.arrow (by decide) hstart hlt hlt2 hplain
                                    ⟨by rw [harr]; decide, by rw [harr]; decide⟩
                                · have heq : lx.nextTokenCore = (lx.advance.atom TokenKind.minus, lx.advance) := by
                                    simp only [Lexer.nextTokenCore]
                                    rw [if_neg hc0, if_neg hal, if_neg hdg, if_neg hq, if_neg hplus, if_neg hstar, if_neg hslash, if_neg hlparen, if_neg hrparen, if_neg hcomma, if_neg hcolon, if_neg hdot, if_neg hlessThan, if_neg hgreaterThan, if_pos hminus, if_neg harr]
                                  rw [heq]
                                  exact tokStep_atom1 lx TokenKind.minus (by decide) hstart hlt hplain
                              · -- not '-'
                                by_cases heql : lx.peek = '='
                                · -- '=' or '=='
                                  by_cases heq2 : lx.advance.peek = '='
                                  · have heq : lx.nextTokenCore = (lx.advance.advance.atom TokenKind.equalEqual, lx.advance.advance) := by
                                      simp only [Lexer.nextTokenCore]
                                      rw [if_neg hc0, if_neg hal, if_neg hdg, if_neg hq, if_neg hplus, if_neg hstar, if_neg hslash, if_neg hlparen, if_neg hrparen, if_neg hcomma, if_neg hcolon, if_neg hdot, if_neg hlessThan, if_neg hgreaterThan, if_neg hminus, if_pos heql, if_pos heq2]
                                    rw [heq]
                                    have hlt2 : lx.position + 1 < lx.source.length := by
                                      have h2 := pos_lt_of_peek_ne_nul lx.advance (by rw [heq2]; decide)
                                      rw [advance_position_lt lx hlt, advance_source] at h2
                                      omega
                                    exact tokStep_atom2 lx TokenKind.equalEqual (by decide) hstart hlt hlt2 hplain
                                      ⟨by rw [heq2]; decide, by rw [heq2]; decide⟩
                                  · have heq : lx.nextTokenCore = (lx.advance.atom TokenKind.equal, lx.advance) := by
                                      simp only [Lexer.nextTokenCore]
                                      rw [if_neg hc0, if_neg hal, if_neg hdg, if_neg hq, if_neg hplus, if_neg hstar, if_neg hslash, if_neg hlparen, if_neg hrparen, if_neg hcomma, if_neg hcolon, if_neg hdot, if_neg hlessThan, if_neg hgreaterThan, if_neg hminus, if_pos heql, if_neg heq2]
                                    rw [heq]
                                    exact tokStep_atom1 lx TokenKind.equal (by decide) hstart hlt hplain
                                · -- not '='
                                  by_cases hbang : lx.peek = '!'
                                  · -- '!=' or lone '!'
                                    by_cases hbang2 : lx.advance.peek = '='
                                    · have heq : lx.nextTokenCore = (lx.advance.advance.atom TokenKind.notEqual, lx.advance.advance) := by
                                        simp only [Lexer.nextTokenCore]
                                        rw [if_neg hc0, if_neg hal, if_neg hdg, if_neg hq, if_neg hplus, if_neg hstar, if_neg hslash, if_neg hlparen, if_neg hrparen, if_neg hcomma, if_neg hcolon, if_neg hdot, if_neg hlessThan, if_neg hgreaterThan, if_neg hminus, if_neg heql, if_pos hbang, if_pos hbang2]
                                      rw [heq]
                                      have hlt2 : lx.position + 1 < lx.source.length := by
                                        have h2 := pos_lt_of_peek_ne_nul lx.advance (by rw [hbang2]; decide)
                                        rw [advance_position_lt lx hlt, advance_source] at h2
                                        omega
                                      exact tokStep_atom2 lx TokenKind.notEqual (by decide) hstart hlt hlt2 hplain
                                        ⟨by rw [hbang2]; decide, by rw [hbang2]; decide⟩
                                    · have heq : lx.nextTokenCore = (lx.advance.atom TokenKind.error, lx.advance) := by
                                        simp only [Lexer.nextTokenCore]
                                        rw [if_neg hc0, if_neg hal, if_neg hdg, if_neg hq, if_neg hplus, if_neg hstar, if_neg hslash, if_neg hlparen, if_neg hrparen, if_neg hcomma, if_neg hcolon, if_neg hdot, if_neg hlessThan, if_neg hgreaterThan, if_neg hminus, if_neg heql, if_pos hbang, if_neg hbang2]
                                      rw [heq]
                                      exact tokStep_atom1 lx TokenKind.error (by decide) hstart hlt hplain
                                  · -- anything else: Error token
                                    have heq : lx.nextTokenCore = (lx.advance.atom TokenKind.error, lx.advance) := by
                                      simp only [Lexer.nextTokenCore]
                                      rw [if_neg hc0, if_neg hal, if_neg hdg, if_neg hq, if_neg hplus, if_neg hstar, if_neg hslash, if_neg hlparen, if_neg hrparen, if_neg hcomma, if_neg hcolon, if_neg hdot, if_neg hlessThan, if_neg hgreaterThan, if_neg hminus, if_neg heql, if_neg hbang]
                                    rw [heq]
                                    exact tokStep_atom1 lx TokenKind.error (by decide) hstart hlt hplain

/-- One `nextToken` round: either EOF is reached (empty token text, no
significant input left), or a non-EOF token strictly consumes input and its
text is the next block of `stripSpec`. -/
theorem nextToken_step (lx0 : Lexer) (hnn : nulChar ∉ lx0.source)
    (hnq : '"' ∉ lx0.source) (hp : lx0.position ≤ lx0.source.length) :
    lx0.nextToken.2.source = lx0.source ∧
      ((lx0.nextToken.1.kind = TokenKind.endOfFile ∧ lx0.nextToken.1.text = [] ∧
          stripSpecGo false (lx0.source.drop lx0.position) = []) ∨
        (lx0.nextToken.1.kind ≠ TokenKind.endOfFile ∧
          lx0.position < lx0.nextToken.2.position ∧
          lx0.nextToken.2.position ≤ lx0.source.length ∧
          stripSpecGo false (lx0.source.drop lx0.position) =
            lx0.nextToken.1.text ++
              stripSpecGo false (lx0.source.drop lx0.nextToken.2.position))) := by
  obtain ⟨s1, s2, s3, s4, s5, s6, s7⟩ :=
    skipWhitespace_spec (lx0.source.length + 1) lx0 hnn hp (by omega)
  have hNT : lx0.nextToken = Lexer.nextTokenCore
      { skipWhitespace (lx0.source.length + 1) lx0 with
        startPosition := (skipWhitespace (lx0.source.length + 1) lx0).position } := rfl
  generalize hA : skipWhitespace (lx0.source.length + 1) lx0 = lxA at s1 s2 s3 s4 s5 s6 s7 hNT
  have hBsrc : ({ lxA with startPosition := lxA.position } : Lexer).source = lxA.source := rfl
  have hBpos : ({ lxA with startPosition := lxA.position } : Lexer).position = lxA.position := rfl
  have hBpeek : ({ lxA with startPosition := lxA.position } : Lexer).peek = lxA.peek := rfl
  have hcore := nextTokenCore_spec { lxA with startPosition := lxA.position }
    (by rw [hBsrc, s1]; exact hnq) rfl (by rw [hBpos, hBsrc, s1]; exact s4)
    (by rw [hBpeek]; exact s6) (by rw [hBpeek]; exact s7)
  rw [← hNT] at hcore
  rcases hcore with ⟨hnul, heq⟩ | hTS
  · -- EOF: no significant input remains
    rw [hBpeek] at hnul
    have hge : lx0.source.length ≤ lxA.position := by
      rcases Nat.lt_or_ge lxA.position lx0.source.length with hl | hl
      · exfalso
        have hmem := peek_mem lxA (by rw [s1]; exact hl)
        rw [s1] at hmem
        exact hnn (hnul ▸ hmem)
      · exact hl
    refine ⟨by rw [heq]; exact s1, Or.inl ⟨by rw [heq]; rfl, ?_, ?_⟩⟩
    · rw [heq]
      show (({ lxA with startPosition := lxA.position } : Lexer).atom
        TokenKind.endOfFile).text = []
      simp only [Lexer.atom]
      rw [Nat.sub_self, List.take_zero]
    · rw [s5, List.drop_eq_nil_of_le hge]
      rfl
  · unfold TokStep at hTS
    obtain ⟨t1, t2, t3, t4, t5, t6⟩ := hTS
    rw [hBsrc, s1] at t1 t4 t6
    rw [hBpos] at t3 t6
    refine ⟨t1, Or.inr ⟨t2, by omega, t4, ?_⟩⟩
    rw [s5, t6]

/-- Lexing to exhaustion, token text concatenation, against `stripSpec` of
the remaining input: the fueled accumulation lemma behind the round-trip
theorem. -/
theorem lexAll_strip : ∀ (fuel : Nat) (lx : Lexer), nulChar ∉ lx.source →
    '"' ∉ lx.source → lx.position ≤ lx.source.length →
    lx.source.length - lx.position + 2 ≤ fuel →
    concatTexts (lexAll fuel lx) = stripSpecGo false (lx.source.drop lx.position) := by
  intro fuel
  induction fuel with
  | zero => intro lx _ _ _ hf; omega
  | succ fuel ih =>
    intro lx hnn hnq hp hf
    obtain ⟨hsrc, hcase⟩ := nextToken_step lx hnn hnq hp
    rcases he : lx.nextToken with ⟨t, lx1⟩
    rw [he] at hsrc hcase
    simp only at hsrc hcase
    by_cases hk : t.kind = TokenKind.endOfFile
    · rcases hcase with ⟨_, htext, hstrip⟩ | ⟨hne, _, _, _⟩
      · simp only [lexAll, he, if_pos hk]
        show t.text ++ [] = _
        rw [htext, hstrip]
        rfl
      · exact absurd hk hne
    · rcases hcase with ⟨hk2, _, _⟩ | ⟨_, hlt, hle, hstrip⟩
      · exact absurd hk2 hk
      · simp only [lexAll, he, if_neg hk]
        show t.text ++ concatTexts (lexAll fuel lx1) = _
        rw [ih lx1 (hsrc ▸ hnn) (hsrc ▸ hnq) (by rw [hsrc]; exact hle)
          (by rw [hsrc]; omega), hsrc, hstrip]

theorem takeWhile_all_append (p : Char → Bool) :
    ∀ (ds rest : List Char), (∀ c ∈ ds, p c = true) →
      (ds ++ rest).takeWhile p = ds ++ rest.takeWhile p
  | [], _, _ => rfl
  | c :: ds, rest, h => by
    rw [List.cons_append, List.takeWhile_cons_of_pos (h c (List.mem_cons_self c ds)),
      takeWhile_all_append p ds rest (fun d hd => h d (List.mem_cons_of_mem c hd))]
    rfl

end PyNext

namespace PyNext

theorem checkExpr_fills : ∀ (e : Expr) (env : SemaEnv),
    (exprType (checkExpr env e)).isSome = true
  | .lit v f b s ty, env => by simp [checkExpr, exprType]
  | .var n ty, env => by simp [checkExpr, exprType]
  | .bin op l r ty, env => by
    have hl := checkExpr_fills l env
    have hr := checkExpr_fills r env
    by_cases hop : op = "="
    · cases hv : isValidLHS l
      · simp [checkExpr, hop, hv, exprType]
      · simp only [checkExpr, hop, hv, if_pos, if_true, ite_true, exprType]
        simpa [exprType] using hr
    · simp only [checkExpr, if_neg hop, exprType]
      split
      · simp
      · exact hl
  | .call c args ty, env => by
    simp only [checkExpr, exprType]
    split <;> simp
  | .member obj m ty, env => by
    simp only [checkExpr, exprType]
    split
    · split <;> simp
    · simp
  | .index obj ix ty, env => by
    simp only [checkExpr, exprType]
    split <;> simp
  | .arrayLit .nil ty, env => by simp [checkExpr, exprType]
  | .arrayLit (.cons e es) ty, env => by simp [checkExpr, exprType]

mutual

theorem checkExpr_allTyped : ∀ (e : Expr) (env : SemaEnv),
    validAssigns e = true → allTyped (checkExpr env e) = true
  | .lit v f b s ty, env, _ => by simp [checkExpr, allTyped]
  | .var n ty, env, _ => by simp [checkExpr, allTyped]
  | .bin op l r ty, env, h => by
    have hfl := checkExpr_fills l env
    have hfr := checkExpr_fills r env
    simp only [validAssigns, Bool.and_eq_true, Bool.or_eq_true] at h
    obtain ⟨⟨hlhs, hvl⟩, hvr⟩ := h
    have ihl := checkExpr_allTyped l env hvl
    have ihr := checkExpr_allTyped r env hvr
    by_cases hop : op = "="
    · have hv : isValidLHS l = true := by
        rcases hlhs with h1 | h1
        · simp [hop] at h1
        · exact h1
      simp [checkExpr, hop, hv, allTyped, ihl, ihr, hfr]
    · simp only [checkExpr, if_neg hop]
      simp only [allTyped, Bool.and_eq_true]
      refine ⟨⟨?_, ihl⟩, ihr⟩
      split
      · simp
      · exact hfl
  | .call c args ty, env, h => by
    simp only [validAssigns] at h
    have ih := checkExprList_allTyped args env h
    simp only [checkExpr, allTyped, Bool.and_eq_true]
    exact ⟨by split <;> simp, ih⟩
  | .member obj m ty, env, h => by
    simp only [validAssigns] at h
    have ih := checkExpr_allTyped obj env h
    simp only [checkExpr, allTyped, Bool.and_eq_true]
    refine ⟨?_, ih⟩
    split
    · split <;> simp
    · simp
  | .index obj ix ty, env, h => by
    simp only [validAssigns, Bool.and_eq_true] at h
    obtain ⟨ho, hi⟩ := h
    have iho := checkExpr_allTyped obj env ho
    have ihi := checkExpr_allTyped ix env hi
    simp only [checkExpr, allTyped, Bool.and_eq_true]
    exact ⟨⟨by split <;> simp, iho⟩, ihi⟩
  | .arrayLit .nil ty, env, _ => by simp [checkExpr, allTyped, allTypedList]
  | .arrayLit (.cons e es) ty, env, h => by
    simp only [validAssigns, validAssignsList, Bool.and_eq_true] at h
    obtain ⟨he, hes⟩ := h
    have ihe := checkExpr_allTyped e env he
    have ihes := checkExprList_allTyped es env hes
    simp [checkExpr, allTyped, allTypedList, ihe, ihes]

theorem checkExprList_allTyped : ∀ (es : ExprList) (env : SemaEnv),
    validAssignsList es = true → allTypedList (checkExprList env es) = true
  | .nil, env, _ => by simp [checkExprList, allTypedList]
  | .cons e es, env, h => by
    simp only [validAssignsList, Bool.and_eq_true] at h
    simp [checkExprList, allTypedList, checkExpr_allTyped e env h.1,
      checkExprList_allTyped es env h.2]

end

mutual

theorem checkStmt_allTyped : ∀ (s : Stmt) (env : SemaEnv),
    stmtValidAssigns s = true → stmtAllTyped (checkStmt env s).1 = true
  | .exprStmt e, env, h => by
    simp only [stmtValidAssigns] at h
    simp [checkStmt, stmtAllTyped, checkExpr_allTyped e env h]
  | .ret Option.none, env, h => by simp [checkStmt, stmtAllTyped]
  | .ret (Option.some e), env, h => by
    simp only [stmtValidAssigns] at h
    simp [checkStmt, stmtAllTyped, checkExpr_allTyped e env h]
  | .ifStmt c t .none, env, h => by
    simp only [stmtValidAssigns, Bool.and_eq_true] at h
    simp [checkStmt, stmtAllTyped, checkExpr_allTyped c env h.1.1,
      checkStmtList_allTyped t env h.1.2]
  | .ifStmt c t (.some b), env, h => by
    simp only [stmtValidAssigns, Bool.and_eq_true] at h
    simp [checkStmt, stmtAllTyped, checkExpr_allTyped c env h.1.1,
      checkStmtList_allTyped t env h.1.2,
      checkStmtList_allTyped b (checkStmtList env t).2 h.2]
  | .whileStmt c b, env, h => by
    simp only [stmtValidAssigns, Bool.and_eq_true] at h
    simp [checkStmt, stmtAllTyped, checkExpr_allTyped c env h.1,
      checkStmtList_allTyped b env h.2]
  | .varDecl name typeName Option.none, env, h => by simp [checkStmt, stmtAllTyped]
  | .varDecl name typeName (Option.some e), env, h => by
    simp only [stmtValidAssigns] at h
    simp [checkStmt, stmtAllTyped, checkExpr_allTyped e env h]
  | .funcDecl name params retName .none, env, h => by simp [checkStmt, stmtAllTyped]
  | .funcDecl name params retName (.some b), env, h => by
    simp only [stmtValidAssigns] at h
    simp only [checkStmt, stmtAllTyped]
    exact checkStmtList_allTyped b _ h
  | .structDecl name fields, env, h => by
    simp [checkStmt, stmtAllTyped]
termination_by s env h => sizeOf s

theorem checkStmtList_allTyped : ∀ (sl : StmtList) (env : SemaEnv),
    stmtListValidAssigns sl = true → stmtListAllTyped (checkStmtList env sl).1 = true
  | .nil, env, _ => by simp [checkStmtList, stmtListAllTyped]
  | .cons s sl, env, h => by
    simp only [stmtListValidAssigns, Bool.and_eq_true] at h
    simp [checkStmtList, stmtListAllTyped, checkStmt_allTyped s env h.1,
      checkStmtList_allTyped sl (checkStmt env s).2 h.2]
termination_by sl env h => sizeOf sl

end

end PyNext

namespace PyNext

theorem FuncPres.rfl {a : CG} : FuncPres a a := fun _ _ h => h

theorem FuncPres.trans {a b c : CG} (h1 : FuncPres a b) (h2 : FuncPres b c) :
    FuncPres a c := fun i f h => h2 i f (h1 i f h)

@[simp] theorem functions_setBlock (cg : CG) (bid : Nat) (f : BBlock → BBlock) :
    (cg.setBlock bid f).functions = cg.functions := rfl

@[simp] theorem functions_freshId (cg : CG) : (cg.freshId).2.functions = cg.functions := rfl

@[simp] theorem functions_emit (cg : CG) (i : Instr) : (cg.emit i).functions = cg.functions := by
  unfold CG.emit
  split <;> rfl

@[simp] theorem functions_setIP (cg : CG) (b : Nat) : (cg.setIP b).functions = cg.functions := rfl

@[simp] theorem functions_attachTo (cg : CG) (b f : Nat) :
    (cg.attachTo b f).functions = cg.functions := by
  unfold CG.attachTo
  dsimp only
  split <;> rfl

@[simp] theorem functions_newBlock (cg : CG) (nm : String) (p : Option Nat) :
    (cg.newBlock nm p).2.functions = cg.functions := by
  unfold CG.newBlock CG.freshId
  dsimp only
  cases p
  · rfl
  · rw [functions_attachTo]

@[simp] theorem functions_entryAlloca (cg : CG) (f : Nat) (ty : IRType) (nm : String) :
    (cg.entryAlloca f ty nm).2.functions = cg.functions := by
  unfold CG.entryAlloca CG.freshId
  dsimp only
  split
  · rw [functions_setBlock]
  · rfl

@[simp] theorem functions_widenCond (cg : CG) (v : IRValue) (nm : String) :
    (cg.widenCond v nm).2.functions = cg.functions := by
  unfold CG.widenCond CG.freshId
  dsimp only
  split
  · rw [functions_emit]
  · rfl

@[simp] theorem functions_emitBinop (cg : CG) (op : String) (l r : IRValue) (nm : String) :
    (cg.emitBinop op l r nm).functions = cg.functions := by
  unfold CG.emitBinop CG.freshId
  dsimp only
  rw [functions_emit]

@[simp] theorem functions_emitIcmp (cg : CG) (p : String) (l r : IRValue) (nm : String) :
    (cg.emitIcmp p l r nm).functions = cg.functions := by
  unfold CG.emitIcmp CG.freshId
  dsimp only
  rw [functions_emit]

theorem funcPres_addFunction (cg : CG) (f : IRFunc) : FuncPres cg (cg.addFunction f).2 := by
  intro i g h
  unfold CG.addFunction
  have hi : i < cg.functions.length := by
    by_contra hge
    rw [List.getElem?_eq_none (Nat.le_of_not_lt hge)] at h
    exact Option.noConfusion h
  simpa [List.getElem?_append_left hi] using h

@[simp] theorem functions_genStructDecl (cg : CG) (n : String) (fs : List (String × String)) :
    (genStructDecl cg n fs).functions = cg.functions := by
  unfold genStructDecl
  split <;> rfl

theorem functions_foldParams (l : List (Nat × (String × String))) (fnIdx : Nat)
    (fn : IRFunc) :
    ∀ cg : CG,
      (l.foldl
        (fun c ip =>
          let argTy := fn.paramTys.getD ip.1 (.int 64)
          let (aid, c1) := c.entryAlloca fnIdx argTy ip.2.1
          let c2 := c1.emit (Instr.store
            (Option.some (IRValue.funcArg fnIdx ip.1 argTy)) (IRValue.inst aid (.pointer argTy)))
          { c2 with namedValues := mapInsert ip.2.1 (aid, argTy) c2.namedValues })
        cg).functions = cg.functions := by
  induction l with
  | nil => intro cg; rfl
  | cons p t ih =>
    intro cg
    rw [List.foldl_cons, ih]
    dsimp only
    rw [functions_emit, functions_entryAlloca]

@[simp] theorem functions_cgFuncPrologue (cg : CG) (fnIdx : Nat) (params : List (String × String)) :
    (cgFuncPrologue cg fnIdx params).functions = cg.functions := by
  unfold cgFuncPrologue
  dsimp only
  rw [functions_foldParams]
  dsimp only
  rw [functions_setIP, functions_newBlock]

theorem funcPres_genExpr : ∀ fuel : Nat,
    (∀ (cg : CG) (e : Expr), FuncPres cg (genExpr fuel cg e)) ∧
    (∀ (cg : CG) (es : ExprList), FuncPres cg (genCallArgs fuel cg es).2) ∧
    (∀ (cg : CG) (ty : IRType) (av : IRValue) (i : Nat) (es : ExprList),
      FuncPres cg (genArrayStores fuel cg ty av i es)) ∧
    (∀ (cg : CG) (e : Expr), FuncPres cg (genLValueAddress fuel cg e).2) := by
  intro fuel
  induction fuel with
  | zero =>
    exact ⟨fun cg e => FuncPres.rfl, fun cg es => FuncPres.rfl,
      fun cg ty av i es => FuncPres.rfl, fun cg e => FuncPres.rfl⟩
  | succ fuel ih =>
    obtain ⟨ihE, ihA, ihS, ihL⟩ := ih
    have funcsEqPres : ∀ a b : CG, a.functions = b.functions → FuncPres b a := by
      intro a b hab i f h
      rw [hab]
      exact h
    refine ⟨fun cg e => ?_, fun cg es => ?_, fun cg ty av i es => ?_, fun cg e => ?_⟩
    · -- genExpr
      cases e with
      | lit value isFloat isBool isString ty =>
        simp only [genExpr]
        exact funcsEqPres _ _ (by split_ifs <;> simp)
      | var n ty =>
        simp only [genExpr]
        exact funcsEqPres _ _ (by split <;> simp)
      | bin op l r ty =>
        simp only [genExpr]
        split
        · -- assignment
          refine FuncPres.trans (ihL cg l) ?_
          split
          · exact FuncPres.rfl
          · refine FuncPres.trans (ihE _ r) (funcsEqPres _ _ ?_)
            split <;> simp
        · refine FuncPres.trans (ihE cg l) (FuncPres.trans (ihE _ r) (funcsEqPres _ _ ?_))
          split
          · split_ifs <;> simp
          · simp
      | call callee args ty =>
        simp only [genExpr]
        split
        · exact FuncPres.rfl
        · split
          · exact FuncPres.rfl
          · refine FuncPres.trans (ihA cg args) (funcsEqPres _ _ ?_)
            split <;> simp
      | member obj m ty =>
        simp only [genExpr]
        refine FuncPres.trans (ihL cg (Expr.member obj m ty)) (funcsEqPres _ _ ?_)
        split <;> simp
      | index obj ix ty =>
        simp only [genExpr]
        refine FuncPres.trans (ihL cg (Expr.index obj ix ty)) (funcsEqPres _ _ ?_)
        split <;> simp
      | arrayLit elems ty =>
        simp only [genExpr]
        intro j f h
        refine ihS _ _ _ _ elems j f ?_
        rw [functions_emit, functions_freshId]
        split
        · exact h
        · exact funcPres_addFunction cg _ j f h
    · -- genCallArgs
      cases es with
      | nil => exact FuncPres.rfl
      | cons e rest =>
        simp only [genCallArgs]
        refine FuncPres.trans (ihE cg e) ?_
        split
        · exact FuncPres.rfl
        · refine FuncPres.trans (ihA _ rest) (funcsEqPres _ _ ?_)
          split <;> simp
    · -- genArrayStores
      cases es with
      | nil => exact FuncPres.rfl
      | cons e rest =>
        simp only [genArrayStores]
        refine FuncPres.trans (ihE cg e)
          (FuncPres.trans (funcsEqPres _ _ (by simp)) (ihS _ _ _ _ rest))
    · -- genLValueAddress
      cases e with
      | var n ty =>
        simp only [genLValueAddress]
        exact funcsEqPres _ _ (by split <;> simp)
      | member obj m ty =>
        simp only [genLValueAddress]
        refine FuncPres.trans (ihL cg obj) (funcsEqPres _ _ ?_)
        split
        · simp
        · split
          · simp
          · split
            · split
              · simp
              · split <;> simp
            · simp
      | index obj ix ty =>
        simp only [genLValueAddress]
        refine FuncPres.trans (ihE cg obj) ?_
        split
        · exact FuncPres.rfl
        · refine FuncPres.trans (ihE _ ix) (funcsEqPres _ _ ?_)
          split
          · simp
          · split
            · simp
            · split <;> simp
      | lit value isFloat isBool isString ty => exact FuncPres.rfl
      | bin op l r ty => exact FuncPres.rfl
      | call c a ty => exact FuncPres.rfl
      | arrayLit es ty => exact FuncPres.rfl

@[simp] theorem functions_termIte (cg : CG) (i : Instr) :
    (if cg.curTerminated then cg else cg.emit i).functions = cg.functions := by
  split <;> simp

theorem funcPres_cgFuncEpilogue (cg : CG) (rn : String) (rt : IRType) :
    FuncPres cg (cgFuncEpilogue cg rn rt) := by
  intro i f h
  unfold cgFuncEpilogue
  split_ifs <;> (try split) <;> simp [h]

theorem funcPres_cgFuncRestore (cg : CG) (b : Option Nat)
    (nv : List (String × (Nat × IRType))) : FuncPres cg (cgFuncRestore cg b nv) := by
  intro i f h
  unfold cgFuncRestore
  split <;> simp [h, functions_setIP]

mutual

theorem funcPres_genStmt : ∀ (s : Stmt) (cg : CG), FuncPres cg (genStmt cg s)
  | .exprStmt e, cg => (funcPres_genExpr (exprFuel e)).1 cg e
  | .ret Option.none, cg => by
    intro i f h
    simp only [genStmt, functions_emit]
    exact h
  | .ret (Option.some e), cg => by
    intro i f h
    simp only [genStmt, functions_emit]
    exact (funcPres_genExpr (exprFuel e)).1 cg e i f h
  | .ifStmt c t .none, cg => by
    intro i f h
    have h1 := (funcPres_genExpr (exprFuel c)).1 cg c i f h
    simp only [genStmt]
    split
    · exact h1
    · simp only [functions_setIP, functions_attachTo, functions_termIte]
      refine funcPres_genStmtList t _ i f ?_
      simp [h1]
  | .ifStmt c t (.some b), cg => by
    intro i f h
    have h1 := (funcPres_genExpr (exprFuel c)).1 cg c i f h
    simp only [genStmt]
    split
    · exact h1
    · simp only [functions_setIP, functions_attachTo, functions_termIte]
      refine funcPres_genStmtList b _ i f ?_
      simp only [functions_setIP, functions_attachTo, functions_termIte]
      refine funcPres_genStmtList t _ i f ?_
      simp [h1]
  | .whileStmt c b, cg => by
    intro i f h
    simp only [genStmt]
    split
    · exact (funcPres_genExpr (exprFuel c)).1 _ c i f (by simp [h])
    · simp only [functions_setIP, functions_attachTo, functions_termIte]
      refine funcPres_genStmtList b _ i f ?_
      simp only [functions_setIP, functions_attachTo]
      rw [functions_emit, functions_widenCond]
      exact (funcPres_genExpr (exprFuel c)).1 _ c i f (by simp [h])
  | .varDecl name typeName Option.none, cg => by
    intro i f h
    simp only [genStmt]
    split
    · exact h
    · simp [h]
  | .varDecl name typeName (Option.some i), cg => by
    intro j g h
    have h1 := (funcPres_genExpr (exprFuel i)).1 cg i j g h
    simp only [genStmt]
    split
    · exact h1
    · split <;> simp [h1]
  | .funcDecl name params retName .none, cg => by
    intro i f h
    simp only [genStmt, genFunctionStmt]
    exact funcPres_addFunction cg _ i f h
  | .funcDecl name params retName (.some b), cg => by
    intro i f h
    simp only [genStmt, genFunctionStmt]
    refine funcPres_cgFuncRestore _ _ _ i f ?_
    refine funcPres_cgFuncEpilogue _ _ _ i f ?_
    refine funcPres_genStmtList b _ i f ?_
    rw [functions_cgFuncPrologue]
    exact funcPres_addFunction cg _ i f h
  | .structDecl name fields, cg => by
    intro i f h
    simp only [genStmt, functions_genStructDecl]
    exact h

theorem funcPres_genStmtList : ∀ (sl : StmtList) (cg : CG),
    FuncPres cg (genStmtList cg sl)
  | .nil, cg => FuncPres.rfl
  | .cons s sl, cg => by
    intro i f h
    simp only [genStmtList]
    exact funcPres_genStmtList sl _ i f (funcPres_genStmt s cg i f h)

end

/-- The implicit entry function stays the first function of the module. -/

@[simp] theorem blocks_setIP (cg : CG) (b : Nat) : (cg.setIP b).blocks = cg.blocks := rfl

theorem blocks_cgFuncRestore (cg : CG) (b : Option Nat)
    (nv : List (String × (Nat × IRType))) : (cgFuncRestore cg b nv).blocks = cg.blocks := by
  unfold cgFuncRestore
  split <;> rfl

theorem findBlock_eq_of_blocks {a b : CG} (h : a.blocks = b.blocks) (bid : Nat) :
    a.findBlock bid = b.findBlock bid := by
  unfold CG.findBlock
  rw [h]

theorem find_map_upd (bid : Nat) (f : BBlock → BBlock) (hid : ∀ b, (f b).id = b.id) :
    ∀ l : List BBlock,
      (l.map (fun b => if b.id = bid then f b else b)).find? (fun b => b.id = bid) =
        (l.find? (fun b => b.id = bid)).map f
  | [] => rfl
  | b :: t => by
    by_cases hb : b.id = bid
    · simp only [List.map_cons, if_pos hb]
      rw [List.find?_cons_of_pos, List.find?_cons_of_pos]
      · rfl
      · simpa using hb
      · simpa [hid] using hb
    · simp only [List.map_cons, if_neg hb]
      rw [List.find?_cons_of_neg, List.find?_cons_of_neg]
      · exact find_map_upd bid f hid t
      · simpa using hb
      · simpa using hb

theorem findBlock_setBlock (cg : CG) (bid : Nat) (f : BBlock → BBlock)
    (hid : ∀ b, (f b).id = b.id) :
    (cg.setBlock bid f).findBlock bid = (cg.findBlock bid).map f := by
  unfold CG.setBlock CG.findBlock
  exact find_map_upd bid f hid cg.blocks

theorem findBlock_emit (cg : CG) (i : Instr) (bid : Nat)
    (hip : cg.insertPt = Option.some bid) :
    (cg.emit i).findBlock bid =
      (cg.findBlock bid).map (fun b => { b with instrs := b.instrs ++ [i] }) := by
  unfold CG.emit
  rw [hip]
  exact findBlock_setBlock cg bid _ (fun b => rfl)

theorem cgFuncEpilogue_unterminated (cg : CG) (rn : String) (rt : IRType)
    (h : cg.curTerminated = false) :
    cgFuncEpilogue cg rn rt = cg.emit (fabricatedReturn rn rt) := by
  unfold cgFuncEpilogue fabricatedReturn
  rw [h]
  by_cases hv : rn = "void"
  · simp [hv]
  · cases rt <;> simp [hv]

theorem funcAt_afterBody (cg : CG) (name : String) (params : List (String × String))
    (retName : String) (body : StmtList) :
    (cgAfterBody cg name params retName body).funcAt (cgFuncCreate cg name params retName).1 =
      Option.some (IRFunc.mk name (getIRType cg.structTypes retName)
        (params.map (fun p => getIRType cg.structTypes p.2))) := by
  unfold CG.funcAt cgAfterBody
  rw [List.get?_eq_getElem?]
  refine funcPres_genStmtList body _ _ _ ?_
  rw [functions_cgFuncPrologue]
  unfold cgFuncCreate CG.addFunction
  dsimp only
  exact List.getElem?_concat_length _ _

theorem mapLookup_insert_self {α : Type} (k : String) (v : α) (l : List (String × α)) :
    mapLookup k (mapInsert k v l) = Option.some v := by
  induction l with
  | nil => simp [mapInsert, mapLookup]
  | cons p t ih =>
    by_cases hp : p.1 = k
    · simp [mapInsert, mapLookup, hp]
    · simp [mapInsert, mapLookup, hp, ih]

theorem mapLookup_insert_ne {α : Type} (k k' : String) (v : α) (l : List (String × α))
    (h : k' ≠ k) : mapLookup k (mapInsert k' v l) = mapLookup k l := by
  induction l with
  | nil => simp [mapInsert, mapLookup, h]
  | cons p t ih =>
    by_cases hp : p.1 = k'
    · simp [mapInsert, mapLookup, hp, h]
    · simp only [mapInsert, if_neg hp, mapLookup]
      by_cases hk : p.1 = k
      · simp [hk]
      · simp [hk, ih]

theorem lookup_buildGo_notMem (m : String) (fields : List (String × String)) :
    m ∉ fields.map Prod.fst → ∀ (acc : List (String × Int)) (i : Int),
      mapLookup m (buildFieldIndicesGo acc i fields) = mapLookup m acc := by
  induction fields with
  | nil => intro _ acc i; rfl
  | cons f t ih =>
    intro hm acc i
    simp only [List.map_cons, List.mem_cons] at hm
    push_neg at hm
    simp only [buildFieldIndicesGo]
    rw [ih hm.2, mapLookup_insert_ne _ _ _ _ hm.1.symm]

theorem c6_aux (sd : List (String × Ty)) (m : String) :
    ∀ (fields : List (String × String)) (acc : List (String × Int)) (i : Int),
      (fields.map Prod.fst).Nodup → m ∈ fields.map Prod.fst →
      mapLookup m (buildFieldIndicesGo acc i fields) =
        Option.some (getMemberIndexGo m i (fields.map (fun f => (f.1, resolveType sd f.2)))) := by
  intro fields
  induction fields with
  | nil => intro acc i _ hm; simp at hm
  | cons f t ih =>
    intro acc i hnd hm
    simp only [List.map_cons, List.nodup_cons] at hnd
    by_cases hf : f.1 = m
    · simp only [buildFieldIndicesGo]
      rw [lookup_buildGo_notMem m t (by rw [← hf]; exact hnd.1) _ _]
      rw [hf, mapLookup_insert_self]
      simp [getMemberIndexGo, hf]
    · simp only [List.map_cons, List.mem_cons] at hm
      rcases hm with hm | hm
      · exact absurd hm.symm hf
      · simp only [buildFieldIndicesGo]
        rw [ih _ _ hnd.2 hm]
        simp [getMemberIndexGo, hf]

@[simp] theorem structMaps_emit (cg : CG) (i : Instr) :
    (cg.emit i).structTypes = cg.structTypes ∧
    (cg.emit i).structFieldIndices = cg.structFieldIndices := by
  unfold CG.emit
  split <;> exact ⟨rfl, rfl⟩

@[simp] theorem structTypes_emit (cg : CG) (i : Instr) :
    (cg.emit i).structTypes = cg.structTypes := (structMaps_emit cg i).1

@[simp] theorem structFieldIndices_emit (cg : CG) (i : Instr) :
    (cg.emit i).structFieldIndices = cg.structFieldIndices := (structMaps_emit cg i).2

@[simp] theorem structTypes_termIte (cg : CG) (i : Instr) :
    (if cg.curTerminated then cg else cg.emit i).structTypes = cg.structTypes := by
  split <;> simp

@[simp] theorem structFieldIndices_termIte (cg : CG) (i : Instr) :
    (if cg.curTerminated then cg else cg.emit i).structFieldIndices =
      cg.structFieldIndices := by
  split <;> simp

@[simp] theorem structTypes_attachTo (cg : CG) (b f : Nat) :
    (cg.attachTo b f).structTypes = cg.structTypes := by
  unfold CG.attachTo
  dsimp only
  split <;> rfl

@[simp] theorem structFieldIndices_attachTo (cg : CG) (b f : Nat) :
    (cg.attachTo b f).structFieldIndices = cg.structFieldIndices := by
  unfold CG.attachTo
  dsimp only
  split <;> rfl

@[simp] theorem structTypes_newBlock (cg : CG) (nm : String) (p : Option Nat) :
    (cg.newBlock nm p).2.structTypes = cg.structTypes := by
  unfold CG.newBlock CG.freshId
  dsimp only
  cases p
  · rfl
  · rw [structTypes_attachTo]

@[simp] theorem structFieldIndices_newBlock (cg : CG) (nm : String) (p : Option Nat) :
    (cg.newBlock nm p).2.structFieldIndices = cg.structFieldIndices := by
  unfold CG.newBlock CG.freshId
  dsimp only
  cases p
  · rfl
  · rw [structFieldIndices_attachTo]

@[simp] theorem structTypes_setIP (cg : CG) (b : Nat) :
    (cg.setIP b).structTypes = cg.structTypes := rfl

@[simp] theorem structFieldIndices_setIP (cg : CG) (b : Nat) :
    (cg.setIP b).structFieldIndices = cg.structFieldIndices := rfl

@[simp] theorem structTypes_addFunction (cg : CG) (f : IRFunc) :
    (cg.addFunction f).2.structTypes = cg.structTypes := rfl

@[simp] theorem structFieldIndices_addFunction (cg : CG) (f : IRFunc) :
    (cg.addFunction f).2.structFieldIndices = cg.structFieldIndices := rfl

end PyNext

namespace PyNext

/-! ## The claims -/

/-- C1: the specification lists `[` and `]` among the single-character
operator tokens, but `Lexer::nextToken` has no switch case for either:
lexing `[` or `]` yields an Error token, even though the `TokenKind`
enumeration declares `lbracket`/`rbracket` and the parser's
index-expression path consumes exactly those kinds.  Concrete refutation on
the one-character inputs. -/
theorem c1_brackets_error :
    ((mkLexer ['[']).nextToken).1.kind = TokenKind.error ∧
      ((mkLexer [']']).nextToken).1.kind = TokenKind.error := by
  constructor <;> rfl

/-- C2 (amended): after Sema runs over a module all of whose assignment
expressions have a valid (Variable, MemberAccess or Index) left side, every
reachable expression node of the returned AST has a filled type slot.
Without the proviso the claim is false: for an assignment with any other
left side the checker types the assignment node itself void and returns
with both children unvisited (see `c2_counterexample`). -/
theorem c2_sema_fills_types (stmts : StmtList)
    (h : stmtListValidAssigns stmts = true) :
    stmtListAllTyped (semaCheck stmts).1 = true := by
  unfold semaCheck
  exact checkStmtList_allTyped stmts initialSemaEnv h

/-- C2 counterexample: in the module `(1 + 2) = 3;` the assignment's left
side is no l-value, so Sema leaves both children's type slots null — a
reachable untyped node survives the pass. -/
theorem c2_counterexample :
    stmtListAllTyped (semaCheck (.cons (.exprStmt (.bin "="
      (.bin "+" (.lit "1" false false false Option.none)
        (.lit "2" false false false Option.none) Option.none)
      (.lit "3" false false false Option.none) Option.none)) .nil)).1 = false := by
  rfl

/-- C2 witness: the amended theorem at the concrete module `1 + 2;`. -/
theorem c2_witness :
    stmtListValidAssigns (.cons (.exprStmt (.bin "+"
      (.lit "1" false false false Option.none)
      (.lit "2" false false false Option.none) Option.none)) .nil) = true ∧
    stmtListAllTyped (semaCheck (.cons (.exprStmt (.bin "+"
      (.lit "1" false false false Option.none)
      (.lit "2" false false false Option.none) Option.none)) .nil)).1 = true :=
  ⟨by rfl, c2_sema_fills_types (.cons (.exprStmt (.bin "+"
      (.lit "1" false false false Option.none)
      (.lit "2" false false false Option.none) Option.none)) .nil) (by rfl)⟩

/-- C3 (amended): `=` sits at the lowest precedence level (1) but is parsed
LEFT-associatively: `Parser::parseBinary` consumes the right operand with
precedence `current + 1` for every operator, `=` included, so a chained
`a = b = c` parses as `(a = b) = c` — for arbitrary identifier names. -/
theorem c3_assign_left_assoc (a b c : String) :
    parseExpression 9 [identTok a, eqTok, identTok b, eqTok, identTok c] =
      Option.some (Expr.bin "=" (Expr.bin "="
        (Expr.var a Option.none) (Expr.var b Option.none) Option.none)
        (Expr.var c Option.none) Option.none, []) := rfl

/-- C3 counterexample: the right-associative AST `a = (b = c)` the
specification prescribes is not what the parser returns for `a = b = c`. -/
theorem c3_counterexample :
    ¬ parseExpression 9 [identTok "a", eqTok, identTok "b", eqTok, identTok "c"] =
      Option.some (Expr.bin "=" (Expr.var "a" Option.none)
        (Expr.bin "=" (Expr.var "b" Option.none) (Expr.var "c" Option.none)
          Option.none) Option.none, []) := by
  intro h
  simp only [show parseExpression 9 [identTok "a", eqTok, identTok "b", eqTok,
      identTok "c"] = Option.some (Expr.bin "=" (Expr.bin "="
        (Expr.var "a" Option.none) (Expr.var "b" Option.none) Option.none)
        (Expr.var "c" Option.none) Option.none, []) from rfl] at h
  simp at h

/-- C4 (amended): the generated module's first function is always the
implicit entry function, named `__init` exactly when the user declared a
function called `main` and `main` otherwise, with signature `() -> i64`.
The original "the module contains a function named main iff the user did
not declare one" is refuted by `c4_counterexample`: with a user `main` the
module still contains a function of that name — the user's own. -/
theorem c4_entry_function (stmts : StmtList) :
    (generate stmts).functions[0]? = Option.some
      { name := if userDeclaredMain stmts then "__init" else "main",
        retTy := IRType.int 64, paramTys := [] } := by
  unfold generate
  dsimp only
  simp only [functions_termIte]
  refine funcPres_genStmtList stmts _ 0 _ ?_
  simp [initialCG, CG.addFunction]

/-- C4 counterexample: a module declaring `main` still generates a module
containing a function named `main`, so the specified "iff" fails; the entry
function is then called `__init` and both are present. -/
theorem c4_counterexample :
    userDeclaredMain (.cons (.funcDecl "main" [] "int" (.some .nil)) .nil) = true ∧
    (generate (.cons (.funcDecl "main" [] "int" (.some .nil)) .nil)).containsFunc
      "main" = true ∧
    (generate (.cons (.funcDecl "main" [] "int" (.some .nil)) .nil)).containsFunc
      "__init" = true := by
  refine ⟨rfl, rfl, rfl⟩

/-- C5: when lowering a defined function's body leaves the insertion block
without a terminator, the epilogue appends exactly the fabricated return:
`ret void` when the declared return type is `void`, `ret (i w) 0` when the
IR return type is an integer type, and `ret undef` otherwise. -/
theorem c5_fabricated_return (cg : CG) (name : String) (params : List (String × String))
    (retName : String) (body : StmtList) (bid : Nat) (bb : BBlock)
    (hip : (cgAfterBody cg name params retName body).insertPt = Option.some bid)
    (hterm : (cgAfterBody cg name params retName body).curTerminated = false)
    (hbb : (cgAfterBody cg name params retName body).findBlock bid = Option.some bb) :
    (genFunctionStmt cg name params retName (.some body)).findBlock bid =
      Option.some { bb with instrs :=
        bb.instrs ++ [fabricatedReturn retName (getIRType cg.structTypes retName)] } := by
  have hgen : genFunctionStmt cg name params retName (.some body) =
      cgFuncRestore
        (cgFuncEpilogue (cgAfterBody cg name params retName body) retName
          ((((cgAfterBody cg name params retName body).funcAt
            (cgFuncCreate cg name params retName).1).map (fun f => f.retTy)).getD .voidT))
        (cgFuncCreate cg name params retName).2.insertPt
        (cgFuncCreate cg name params retName).2.namedValues := by
    unfold genFunctionStmt cgAfterBody
    rfl
  rw [hgen, findBlock_eq_of_blocks (blocks_cgFuncRestore _ _ _), funcAt_afterBody]
  simp only [Option.map_some', Option.getD_some]
  rw [cgFuncEpilogue_unterminated _ _ _ hterm, findBlock_emit _ _ _ hip, hbb]
  rfl

/-- C5 witness: the empty-bodied function `def f() -> int` ends its entry
block unterminated, and the lowered function's entry block closes with the
fabricated `ret (i 64) 0`. -/
theorem c5_witness :
    (cgAfterBody initialCG "f" [] "int" .nil).insertPt = Option.some 0 ∧
    (cgAfterBody initialCG "f" [] "int" .nil).curTerminated = false ∧
    (cgAfterBody initialCG "f" [] "int" .nil).findBlock 0 =
      Option.some (BBlock.mk 0 "entry" [] (Option.some 0)) ∧
    (genFunctionStmt initialCG "f" [] "int" (.some .nil)).findBlock 0 =
      Option.some (BBlock.mk 0 "entry"
        ([] ++ [fabricatedReturn "int" (getIRType initialCG.structTypes "int")])
        (Option.some 0)) := by
  refine ⟨rfl, rfl, rfl, ?_⟩
  exact c5_fabricated_return initialCG "f" [] "int" .nil 0
    (BBlock.mk 0 "entry" [] (Option.some 0)) rfl rfl rfl

/-- C6 (amended): for a struct whose field names are pairwise distinct,
Sema's `getMemberIndex` on the registered `StructType` and the index stored
in CodeGen's `structFieldIndices` agree on every declared field — both are
the field's position in declaration order.  With a repeated field name the
two disagree (see `c6_counterexample`): Sema returns the index of the first
occurrence, CodeGen's builder overwrites and keeps the last. -/
theorem c6_field_index_agreement (sd : List (String × Ty)) (fields : List (String × String)) (m : String)
    (hnd : (fields.map Prod.fst).Nodup) (hm : m ∈ fields.map Prod.fst) :
    mapLookup m (buildFieldIndicesGo [] 0 fields) =
      Option.some (getMemberIndex (fields.map (fun f => (f.1, resolveType sd f.2))) m) :=
  c6_aux sd m fields [] 0 hnd hm

/-- C6 counterexample: for a struct with fields `x, x`, Sema's member index
is 0 (first occurrence) but CodeGen records 1 (last occurrence). -/
theorem c6_counterexample :
    getMemberIndex ([("x","int"),("x","int")].map
      (fun f => (f.1, resolveType [] f.2))) "x" = 0 ∧
    mapLookup "x" (buildFieldIndicesGo [] 0 [("x","int"),("x","int")]) = Option.some 1 := by
  constructor
  · rfl
  · rfl

/-- C6 witness: the amended theorem on the two-field struct `a, b` at the
member `b`. -/
theorem c6_witness :
    (([("a", "int"), ("b", "int")] : List (String × String)).map Prod.fst).Nodup ∧
    "b" ∈ ([("a", "int"), ("b", "int")] : List (String × String)).map Prod.fst ∧
    mapLookup "b" (buildFieldIndicesGo [] 0 [("a", "int"), ("b", "int")]) =
      Option.some (getMemberIndex (([("a", "int"), ("b", "int")] :
        List (String × String)).map (fun f => (f.1, resolveType [] f.2))) "b") :=
  ⟨by decide, by decide,
    c6_field_index_agreement [] [("a", "int"), ("b", "int")] "b" (by decide) (by decide)⟩

/-- C7: after Sema visits a function declaration with a body, the symbol
table equals its state from just after the function's own binding was
inserted: the snapshot taken before the parameter bindings is restored, so
neither parameters nor body-local bindings remain. -/
theorem c7_symbol_table_restored (env : SemaEnv) (name : String)
    (params : List (String × String)) (retName : String) (b : StmtList) :
    (checkStmt env (.funcDecl name params retName (.some b))).2.symbolTable =
      mapInsert name
        (Ty.func (resolveType env.structDefs retName)
          (params.map fun p => resolveType env.structDefs p.2))
        env.symbolTable := by
  simp only [checkStmt]

/-- C8 (amended): the scanner classifies a number as Float as soon as a `.`
follows the digit run — no digit is required after the dot.  For a
nonempty digit run `ds` followed by any `rest` that does not begin with a
digit, the token kind is Float iff `rest` begins with `.` (and Integer
otherwise); in particular `1.` lexes as one Float token, refuting the
claim's "at least one digit is consumed after the `.`". -/
theorem c8_number_kind (ds rest : List Char) (hne : ds ≠ [])
    (hds : ∀ c ∈ ds, isDigitC c = true)
    (hrest : ∀ c, rest.head? = some c → isDigitC c = false) :
    ((mkLexer (ds ++ rest)).numberTok).1.kind =
      if rest.head? = some '.' then TokenKind.float else TokenKind.integer := by
  obtain ⟨w1, w2, w3⟩ := scanWhile_spec isDigitC (by decide)
    ((mkLexer (ds ++ rest)).source.length + 1) (mkLexer (ds ++ rest))
    (Nat.zero_le _) (by show (ds ++ rest).length - 0 < (ds ++ rest).length + 1; omega)
  have hrtw : rest.takeWhile isDigitC = [] := by
    cases rest with
    | nil => rfl
    | cons c t =>
      rw [List.takeWhile_cons_of_neg (by simpa using hrest c rfl)]
  have hw3 : (scanWhile isDigitC ((mkLexer (ds ++ rest)).source.length + 1)
      (mkLexer (ds ++ rest))).position = ds.length := by
    rw [w3]
    show 0 + (((ds ++ rest).drop 0).takeWhile isDigitC).length = ds.length
    rw [Nat.zero_add, List.drop_zero, takeWhile_all_append isDigitC ds rest hds, hrtw,
      List.append_nil]
  have hw1 : (scanWhile isDigitC ((mkLexer (ds ++ rest)).source.length + 1)
      (mkLexer (ds ++ rest))).source = ds ++ rest := w1
  cases rest with
  | nil =>
    have hpk : (scanWhile isDigitC ((mkLexer (ds ++ [])).source.length + 1)
        (mkLexer (ds ++ []))).peek = nulChar := by
      refine peek_of_ge _ ?_
      rw [hw1, hw3, List.append_nil]
    have heqN : (mkLexer (ds ++ [])).numberTok =
        ((scanWhile isDigitC ((mkLexer (ds ++ [])).source.length + 1)
          (mkLexer (ds ++ []))).atom TokenKind.integer,
         scanWhile isDigitC ((mkLexer (ds ++ [])).source.length + 1)
          (mkLexer (ds ++ []))) := by
      simp only [Lexer.numberTok]
      rw [if_neg (by rw [hpk]; decide)]
    rw [heqN]
    rfl
  | cons c t =>
    have hlt : (scanWhile isDigitC ((mkLexer (ds ++ c :: t)).source.length + 1)
        (mkLexer (ds ++ c :: t))).position <
        (scanWhile isDigitC ((mkLexer (ds ++ c :: t)).source.length + 1)
          (mkLexer (ds ++ c :: t))).source.length := by
      rw [hw1, hw3, List.length_append, List.length_cons]
      omega
    have hpk : (scanWhile isDigitC ((mkLexer (ds ++ c :: t)).source.length + 1)
        (mkLexer (ds ++ c :: t))).peek = c := by
      rw [peek_of_lt _ hlt]
      have hbound : ds.length < (ds ++ c :: t).length := by
        rw [List.length_append, List.length_cons]
        omega
      have hix : (scanWhile isDigitC ((mkLexer (ds ++ c :: t)).source.length + 1)
          (mkLexer (ds ++ c :: t))).source[
            (scanWhile isDigitC ((mkLexer (ds ++ c :: t)).source.length + 1)
              (mkLexer (ds ++ c :: t))).position] =
          (ds ++ c :: t)[ds.length] := by
        congr 1 <;> first | rw [hw1] | rw [hw3]
      rw [hix, List.getElem_append_right (Nat.le_refl ds.length)]
      simp
    by_cases hc : c = '.'
    · have heqN : ((mkLexer (ds ++ c :: t)).numberTok).1.kind = TokenKind.float := by
        simp only [Lexer.numberTok]
        rw [if_pos (by rw [hpk, hc])]
        rfl
      rw [heqN]
      rw [if_pos (by rw [List.head?_cons, hc])]
    · have heqN : ((mkLexer (ds ++ c :: t)).numberTok).1.kind = TokenKind.integer := by
        simp only [Lexer.numberTok]
        rw [if_neg (by rw [hpk]; exact hc)]
        rfl
      rw [heqN]
      rw [if_neg (by simpa using hc)]

/-- C8 counterexample: `1.` — a digit run followed by `.` and nothing after
it — lexes as a single Float token, where the specification demands an
Integer. -/
theorem c8_counterexample :
    (lexAllTop ['1', '.']).map Token.kind =
      [TokenKind.float, TokenKind.endOfFile] := by
  rfl

/-- C8 witness: the amended classification at `ds = "1"`, `rest = "."`. -/
theorem c8_witness :
    (['1'] : List Char) ≠ [] ∧
    (∀ c ∈ (['1'] : List Char), isDigitC c = true) ∧
    ((mkLexer (['1'] ++ ['.'])).numberTok).1.kind =
      (if (['.'] : List Char).head? = Option.some '.' then TokenKind.float
       else TokenKind.integer) :=
  ⟨by decide, by decide,
    c8_number_kind ['1'] ['.'] (by decide) (by decide)
      (by
        intro c hc
        simp only [List.head?_cons, Option.some_inj] at hc
        subst hc
        decide)⟩

/-- C9 (amended): for every source containing no string literal (no `"`)
and no NUL byte, lexing to exhaustion and concatenating the tokens' text
slices in production order yields the source with whitespace and comments
removed.  For sources with string literals the round-trip fails — the
string token's text drops the two quote characters (see
`c9_counterexample`). -/
theorem c9_lex_roundtrip (src : List Char) (hnn : nulChar ∉ src) (hnq : '"' ∉ src) :
    concatTexts (lexAllTop src) = stripSpec src := by
  have h := lexAll_strip (src.length + 2) (mkLexer src) hnn hnq
    (Nat.zero_le _) (by show src.length - 0 + 2 ≤ src.length + 2; omega)
  unfold lexAllTop stripSpec
  simpa [mkLexer] using h

/-- C9 counterexample: the source `"hi"` lexes to a string token whose text
is `hi` without the quotes, so concatenation loses the two `"` characters
kept by the whitespace-and-comments quotient. -/
theorem c9_counterexample :
    ¬ concatTexts (lexAllTop ['"', 'h', 'i', '"']) =
      stripSpec ['"', 'h', 'i', '"'] := by
  decide

/-- C9 witness: the amended round-trip at the concrete source `ab 1`. -/
theorem c9_witness :
    nulChar ∉ ['a', 'b', ' ', '1'] ∧ ('"' : Char) ∉ ['a', 'b', ' ', '1'] ∧
      concatTexts (lexAllTop ['a', 'b', ' ', '1']) = stripSpec ['a', 'b', ' ', '1'] :=
  ⟨by decide, by decide, c9_lex_roundtrip ['a', 'b', ' ', '1'] (by decide) (by decide)⟩

/-- Claim C10: duplicate struct declarations — CodeGen keeps the first
declaration's aggregate type and field-index map, Sema's registry ends with
the last declaration's type, and the two can disagree on field indices. -/
theorem c10_struct_redefinition :
    (∀ (n : String) (fs1 fs2 : List (String × String)),
      mapLookup n (generate (.cons (.structDecl n fs1)
          (.cons (.structDecl n fs2) .nil))).structTypes =
        Option.some (fs1.map (fun f => getIRType [] f.2)) ∧
      mapLookup n (generate (.cons (.structDecl n fs1)
          (.cons (.structDecl n fs2) .nil))).structFieldIndices =
        Option.some (buildFieldIndicesGo [] 0 fs1) ∧
      mapLookup n (checkStmtList initialSemaEnv (.cons (.structDecl n fs1)
          (.cons (.structDecl n fs2) .nil))).2.structDefs =
        Option.some (Ty.struct n (fs2.map (fun f =>
          (f.1, resolveType (mapInsert n (Ty.struct n (fs1.map (fun g =>
            (g.1, resolveType [] g.2)))) []) f.2))))) ∧
    (mapLookup "S" (checkStmtList initialSemaEnv (.cons (.structDecl "S" [("a","int")])
        (.cons (.structDecl "S" [("b","int"),("a","int")]) .nil))).2.structDefs =
      Option.some (Ty.struct "S" [("b", Ty.int), ("a", Ty.int)]) ∧
     getMemberIndex [("b", Ty.int), ("a", Ty.int)] "a" = 1 ∧
     mapLookup "a" ((generate (.cons (.structDecl "S" [("a","int")])
        (.cons (.structDecl "S" [("b","int"),("a","int")]) .nil))).structFieldIndices.foldr
          (fun p acc => if p.1 = "S" then p.2 else acc) []) = Option.some 0) := by
  constructor
  · intro n fs1 fs2
    refine ⟨?_, ?_, ?_⟩
    · simp only [generate, userDeclaredMain, genStmtList, genStmt, genStructDecl]
      simp [mapLookup_insert_self, mapLookup, mapInsert, initialCG]
    · simp only [generate, userDeclaredMain, genStmtList, genStmt, genStructDecl]
      simp [mapLookup_insert_self, mapLookup, mapInsert, initialCG]
    · simp only [checkStmtList, checkStmt, initialSemaEnv]
      simp [mapLookup_insert_self, mapLookup, mapInsert]
  · refine ⟨rfl, rfl, rfl⟩

end PyNext
